import Mathlib

/-!
Verification of the Google-Drive-For-Desktop-Lite synchronization daemon.

The development shallowly embeds the parts of the Go sources that the
checked properties talk about:

* `service.go` — `GoogleDriveService`: the barrier (`verifiedAt`,
  `verifiedAtPlusOneSec`, `mostRecentTimestampSeen`), the pending sets,
  the lookup-map builders, the upload/download executors and the verifier;
* the cycle driver `main` — the per-cycle control flow (upload section,
  download section, verify section, cleanup section) with `continue`
  modelled as an early exit;
* the connection layer — `uploadLargeFile` / `getBytesUploaded`
  (resumable uploads) and the cleanup pass `removeDeletedFiles`.

Conventions: instants are integer nanoseconds since the Unix epoch
(Go durations are int64 nanoseconds); local and remote paths are cleaned
component lists; Go maps are association lists; every external effect
(filesystem stat/walk/MD5, network calls, the wall clock) is an oracle
recorded in an environment structure, so that one cycle is a pure function
of the starting state and that cycle's environment.
-/

namespace GDrive

/-- Paths are cleaned component lists (the Go code manipulates
slash-joined strings via `path/filepath`). -/
abbrev Path := List String

/-- Instants in integer nanoseconds since the Unix epoch. -/
abbrev Instant := Int

/-- Nanoseconds per second (`time.Second`). -/
def nsPerSecond : Int := 1000000000

/-- Model of `time.Date(2000, time.January, 1, 12, 0, 0, 0, time.UTC)`, the sentinel
that `resetVerifiedTime` assigns, in nanoseconds since the epoch. -/
def sentinelTime : Instant := 946728000000000000

/-- The zero `time.Time` (January 1, year 1 UTC), produced by a zero-valued
field or by `time.Parse` when its error is ignored, in ns since the epoch. -/
def goZeroTime : Instant := -62135596800000000000

/-- Model of `FileMetaData` (connection layer): metadata of a remote file or folder
as decoded from the Drive API.  `modifiedTime` stays the raw RFC3339 string
exactly as in the Go struct. -/
structure FileMetaData where
  id : String
  name : String
  mimeType : String
  modifiedTime : String
  md5Checksum : String
  parents : List String
deriving Repr, DecidableEq, Inhabited

/-- The zero value of the Go struct `FileMetaData`, as produced by an
indexing read of a missing key on a Go map. -/
def FileMetaData.zero : FileMetaData :=
  { id := "", name := "", mimeType := "", modifiedTime := "", md5Checksum := "", parents := [] }

/-- Character-list test for `pat` being a prefix of `l`. -/
def startsChk : List Char → List Char → Bool
  | [], _ => true
  | _ :: _, [] => false
  | p :: ps, c :: cs => p == c && startsChk ps cs

/-- Character-list test for `pat` occurring contiguously inside `l`. -/
def containsSeq (pat : List Char) : List Char → Bool
  | [] => decide (pat = [])
  | c :: rest => startsChk pat (c :: rest) || containsSeq pat rest

/-- Go `strings.Contains s pat`: `pat` occurs as a substring of `s`
(an empty pattern is always contained). -/
def strContains (s pat : String) : Bool :=
  containsSeq pat.toList s.toList

/-- Go `strings.Split(s, "-")` on the character list: split at every dash. -/
def splitDash : List Char → List (List Char)
  | [] => [[]]
  | c :: rest =>
    if c = '-' then [] :: splitDash rest
    else
      match splitDash rest with
      | h :: t => (c :: h) :: t
      | [] => [[c]]

/-- Decimal digit run for `strconv.ParseInt`: all characters must be
digits and at least one must be present. -/
def parseDigits (l : List Char) : Option Nat :=
  if l = [] then none
  else
    l.foldl
      (fun acc c =>
        match acc with
        | none => none
        | some n => if c.isDigit then some (n * 10 + (c.toNat - '0'.toNat)) else none)
      (some 0)

/-- Go `strconv.ParseInt(s, 10, 0)`: optional sign followed by decimal
digits; anything else is an error. -/
def parseIntGo (l : List Char) : Option Int :=
  match l with
  | '+' :: rest => (parseDigits rest).map Int.ofNat
  | '-' :: rest => (parseDigits rest).map fun n => -(n : Int)
  | _ => (parseDigits l).map Int.ofNat

/-- Lookup in a Go `map[string]FileMetaData`, modelled as an association
list keyed by paths (`value, ok := m[k]`). -/
def alookup (k : Path) : List (Path × FileMetaData) → Option FileMetaData
  | [] => none
  | (k2, v) :: rest => if k = k2 then some v else alookup k rest

/-- Insertion/overwrite in a Go `map[string]FileMetaData` (`m[k] = v`). -/
def ainsert (k : Path) (v : FileMetaData) : List (Path × FileMetaData) → List (Path × FileMetaData)
  | [] => [(k, v)]
  | (k2, v2) :: rest => if k = k2 then (k, v) :: rest else (k2, v2) :: ainsert k v rest

/-- Deletion from a Go `map[string]FileMetaData` (`delete(m, k)`). -/
def aerase (k : Path) : List (Path × FileMetaData) → List (Path × FileMetaData)
  | [] => []
  | (k2, v2) :: rest => if k = k2 then aerase k rest else (k2, v2) :: aerase k rest

/-- Insertion into a Go `map[string]bool` used as a set (`m[k] = true`). -/
def insertPath (p : Path) (l : List Path) : List Path :=
  if p ∈ l then l else p :: l

/-- Result of a successful `os.Stat`, restricted to the fields the service
reads: `IsDir`, `Name`, `ModTime`, `Size`. -/
structure LocalInfo where
  isDir : Bool
  name : String
  modTime : Instant
  size : Int
deriving Repr, DecidableEq, Inhabited

/-- Zero value used where the Go code indexes `allLocalFileInfo` at keys
that are guaranteed present (the access is unreachable otherwise). -/
def defaultLocalInfo : LocalInfo := ⟨false, "", 0, 0⟩

/-- The local filesystem oracle: `os.Stat` per path (`none` = error) and
`getMd5OfFile`, which returns `""` when the file cannot be read. -/
structure LocalFs where
  stat : Path → Option LocalInfo
  md5 : Path → String

/-! ### The service state (`GoogleDriveService` plus the driver's `verified` flag) -/

/-- The mutable state of `GoogleDriveService` (service.go) together with
the cycle driver's local `verified` flag. -/
structure SState where
  localFiles : List Path
  filesToUpload : List Path
  filesToDownload : List (Path × FileMetaData)
  uploadLookupMap : List (Path × FileMetaData)
  downloadLookupMap : List (Path × FileMetaData)
  verifiedAt : Instant
  verifiedAtPlusOneSec : Instant
  mostRecentTimestampSeen : Instant
  verified : Bool
  cleanedAt : Instant
deriving Repr, DecidableEq

/-- Model of `resetVerifiedTime` (service.go): both barrier components are set to the
sentinel; note that `verifiedAtPlusOneSec` is assigned `service.verifiedAt`
itself, not `verifiedAt + 1s`. -/
def resetVerifiedTime (s : SState) : SState :=
  { s with verifiedAt := sentinelTime, verifiedAtPlusOneSec := sentinelTime }

/-- Model of `setVerifiedTime` (service.go): the barrier advances to
`mostRecentTimestampSeen` and `verifiedAtPlusOneSec` becomes `verifiedAt + 1s`. -/
def setVerifiedTime (s : SState) : SState :=
  { s with verifiedAt := s.mostRecentTimestampSeen,
           verifiedAtPlusOneSec := s.mostRecentTimestampSeen + nsPerSecond }

/-- Model of `saveTimestamp` (service.go): keep the newest timestamp seen. -/
def saveTimestamp (ts : Instant) (s : SState) : SState :=
  if ts - s.mostRecentTimestampSeen > 0 then { s with mostRecentTimestampSeen := ts } else s

/-- The daemon's state when the cycle loop is entered: zero-valued Go struct
fields (`verifiedAt`, timestamps at the zero `time.Time`), empty maps, and
`localFiles` as filled by the initial `fillLocalMap` walk. -/
def initState (initialLocalFiles : List Path) : SState :=
  { localFiles := initialLocalFiles, filesToUpload := [], filesToDownload := [],
    uploadLookupMap := [], downloadLookupMap := [],
    verifiedAt := goZeroTime, verifiedAtPlusOneSec := goZeroTime,
    mostRecentTimestampSeen := goZeroTime, verified := false, cleanedAt := goZeroTime }

/-! ### Startup config parsing (`initializeService`, service.go) -/

/-- Split a character list at its first `=`, when one exists. -/
def splitFirstEq : List Char → Option (List Char × List Char)
  | [] => none
  | c :: rest =>
    if c = '=' then some ([], rest)
    else
      match splitFirstEq rest with
      | some (a, b) => some (c :: a, b)
      | none => none

/-- Go `strings.SplitN(s, "=", 2)`: at most two pieces, split at the first
occurrence of `=`; a string without `=` comes back whole as a one-element
slice. -/
def splitN2Eq (s : String) : List String :=
  match splitFirstEq s.toList with
  | none => [s]
  | some (a, b) => [String.mk a, String.mk b]

/-- The folder-ids scan loop of `initializeService` (service.go): each line
of `config/folder-ids.txt` is split with `SplitN(line, "=", 2)` and element
`[1]` is read unconditionally; a line with no `=` yields a one-element slice
and the access panics, modelled as `none`. -/
def parseFolderIds : List String → Option (List (String × String))
  | [] => some []
  | line :: rest =>
    match splitN2Eq line with
    | [k, v] =>
      match parseFolderIds rest with
      | some m => some ((k, v) :: m)
      | none => none
    | _ => none

/-! ### Cleanup (`removeDeletedFiles`, cycle driver file) -/

/-- The retention test of `removeDeletedFiles`: an item owned by the service
account survives iff some entry of the freshly built general index satisfies
`len(serviceFile.Parents) == 0 || serviceFile.Parents[0] == remoteMetaData.ID`
(the loop sets `needToDelete = false` and breaks at the first such entry). -/
def retainItem (item : FileMetaData) (index : List FileMetaData) : Bool :=
  index.any fun e =>
    match item.parents with
    | [] => true
    | p0 :: _ => p0 == e.id

/-- The deletion pass of `removeDeletedFiles`: the owned items for which the
retention test fails, i.e. those handed to `deleteFileOrFolder`. -/
def filesToDelete (index : List FileMetaData) (owned : List FileMetaData) : List FileMetaData :=
  owned.filter fun f => !(retainItem f index)

/-! ### The verifier (`verifyUploads` / `verifyDownloads`, service.go) -/

/-- Model of `verifyUploads`, as the filter it performs on the pending-upload set
(the Go loop deletes keys in place; the surviving keys are returned, in
order): a Stat error deletes the entry, a missing index entry keeps it, a
local directory with any index entry is deleted, otherwise the entry is
deleted exactly when the local MD5 equals the indexed MD5. -/
def verifyUploads (fs : LocalFs) (uploadLookupMap : List (Path × FileMetaData))
    (filesToUpload : List Path) : List Path :=
  filesToUpload.filter fun localPath =>
    match fs.stat localPath with
    | none => false
    | some info =>
      match alookup localPath uploadLookupMap with
      | none => true
      | some remote =>
        if info.isDir then false
        else if fs.md5 localPath = remote.md5Checksum then false else true

/-- Model of `verifyDownloads`, as the filter it performs on the pending-download
map.  The index entry is read with a plain map index, so a missing key
yields the zero `FileMetaData` (empty MimeType, empty MD5): such an entry
takes the file branch and is deleted exactly when the local MD5 is `""`. -/
def verifyDownloads (fs : LocalFs) (downloadLookupMap : List (Path × FileMetaData))
    (filesToDownload : List (Path × FileMetaData)) : List (Path × FileMetaData) :=
  filesToDownload.filter fun kv =>
    let remote := (alookup kv.1 downloadLookupMap).getD FileMetaData.zero
    if strContains remote.mimeType "folder" then
      match fs.stat kv.1 with
      | some info => !info.isDir
      | none => true
    else !(fs.md5 kv.1 == remote.md5Checksum)

/-! ### Resumable uploads (`uploadLargeFile` / `getBytesUploaded`, connection layer) -/

/-- Environment of one `getBytesUploaded` probe: request-construction,
transport and body-read failures, the response status and the `Range`
header. -/
structure ProbeEnv where
  reqErr : Bool
  doErr : Bool
  readErr : Bool
  status : Int
  rangeHeader : Option String
deriving Repr, DecidableEq

/-- Model of `getBytesUploaded`: probe the resumable-upload session URI with
`Content-Range: */fileSize`.  200/201 mean fully uploaded; on 308 the
`Range` header is split at `-` and element `[1]` parsed, giving `N + 1`;
a missing or unparsable header falls through to `0`; any other status is
`unknown number of bytes uploaded`. -/
def getBytesUploaded (env : ProbeEnv) (fileSize : Int) : Except String Int :=
  if env.reqErr then .error "request error"
  else if env.doErr then .error "transport error"
  else if env.readErr then .error "read error"
  else if env.status = 200 ∨ env.status = 201 then .ok fileSize
  else if env.status = 308 then
    match env.rangeHeader with
    | none => .ok 0
    | some r =>
      match splitDash r.toList with
      | _ :: second :: _ =>
        match parseIntGo second with
        | some n => .ok (n + 1)
        | none => .ok 0
      | _ => .ok 0
  else .error "unknown number of bytes uploaded"

/-- Environment of one attempt of the `uploadLargeFile` retry loop. -/
structure AttemptEnv where
  newReqErr : Bool
  doErr : Bool
  status : Int
  readErr : Bool
  probe : ProbeEnv
deriving Repr, DecidableEq

/-- The request parameters one attempt actually sends: the offset passed to
`fh.Seek`, the `Content-Length` header, and the `Content-Range` header
(present only when the loop's `bytesUploaded` is positive). -/
structure AttemptRec where
  seekOffset : Int
  contentLength : Int
  contentRange : Option (Int × Int × Int)
deriving Repr, DecidableEq

/-- Outcome of the retry loop.  `nilDeref` marks the path where a transport
error's probe reports completion and the code then reads
`response.StatusCode` from a nil response. -/
inductive UploadOutcome where
  | ok (trace : List AttemptRec)
  | err (msg : String) (trace : List AttemptRec)
  | nilDeref (trace : List AttemptRec)
deriving Repr, DecidableEq

/-- Step 2 of `uploadLargeFile` (the retry loop).  The loop variable
`bytesUploaded` is declared once at `0`; each recovery branch runs
`bytesUploaded, err := conn.getBytesUploaded(url, fileSize)`, a Go short
variable declaration that shadows the outer variable inside the `if` block,
so the outer `bytesUploaded` consulted by `fh.Seek` and by the headers is
never reassigned.  The model threads that outer variable faithfully: the
probed value is only compared against `fileSize` and then discarded. -/
def uploadLoop (fileSize : Int) : List AttemptEnv → Int → List AttemptRec → UploadOutcome
  | [], _, tr => .err "ran out of retries in createLargeRemoteFile" tr
  | e :: rest, bytesUploaded, tr =>
    if e.newReqErr then uploadLoop fileSize rest bytesUploaded tr
    else
      let sent : AttemptRec :=
        { seekOffset := bytesUploaded
          contentLength := fileSize - bytesUploaded
          contentRange :=
            if bytesUploaded > 0 then some (bytesUploaded, fileSize - 1, fileSize) else none }
      let tr := tr ++ [sent]
      if e.doErr then
        match getBytesUploaded e.probe fileSize with
        | .error m => .err m tr
        | .ok b =>
          if b < fileSize then uploadLoop fileSize rest bytesUploaded tr
          else .nilDeref tr
      else if e.status ≥ 400 then
        match getBytesUploaded e.probe fileSize with
        | .error m => .err m tr
        | .ok b =>
          if b < fileSize then uploadLoop fileSize rest bytesUploaded tr
          else if e.readErr then
            match getBytesUploaded e.probe fileSize with
            | .error m => .err m tr
            | .ok b2 => if b2 < fileSize then uploadLoop fileSize rest bytesUploaded tr else .ok tr
          else .ok tr
      else if e.readErr then
        match getBytesUploaded e.probe fileSize with
        | .error m => .err m tr
        | .ok b2 => if b2 < fileSize then uploadLoop fileSize rest bytesUploaded tr else .ok tr
      else .ok tr

/-- Model of `uploadLargeFile` step 2 with its `for try := 1; try <= 5` bound. -/
def uploadLargeFileStep2 (fileSize : Int) (envs : List AttemptEnv) : UploadOutcome :=
  uploadLoop fileSize (envs.take 5) 0 []

/-! ### The upload-index builder (`localPathIsNeeded` / `fillUploadLookupMap`, service.go) -/

/-- Go `filepath.Rel(base, targ)` on cleaned relative component paths:
strip the longest common component prefix, then one `..` per remaining
component of `base`; equal paths give `.`.  On such inputs `Rel` never
returns an error, so the `err == nil` guard of `localPathIsNeeded` always
passes. -/
def goRel : Path → Path → Path
  | b :: bs, t :: ts =>
    if b = t then goRel bs ts else List.replicate (bs.length + 1) ".." ++ (t :: ts)
  | bs, ts => if bs = [] ∧ ts = [] then ["."] else List.replicate bs.length ".." ++ ts

/-- The slash-joined string `filepath.Rel` actually returns. -/
def relString (base targ : Path) : String :=
  String.intercalate "/" (goRel base targ)

/-- Model of `localPathIsNeeded` (service.go): the subtree-skip test of the upload
index builder.  The Go test is `!strings.Contains(relativePath, "..")` — a
substring test on the joined relative path. -/
def localPathIsNeeded (localPath : Path) (filesToUpload : List Path) : Bool :=
  filesToUpload.any fun fileToUpload =>
    !(strContains (relString localPath fileToUpload) "..")

/-- The spec's version of the subtree test, stated for comparison with the
code's `localPathIsNeeded`: the relative path "does not start with `..`"
(a prefix test instead of the code's substring test). -/
def specPathIsNeeded (localPath : Path) (filesToUpload : List Path) : Bool :=
  filesToUpload.any fun fileToUpload =>
    !(startsChk "..".toList (relString localPath fileToUpload).toList)

/-- A node of the remote folder tree: its metadata and, when it is a
folder, the listing its id would return. -/
inductive RNode where
  | mk (meta : FileMetaData) (children : List RNode)

/-- Metadata of a remote node. -/
def RNode.meta : RNode → FileMetaData
  | .mk m _ => m

/-- Children of a remote node. -/
def RNode.children : RNode → List RNode
  | .mk _ cs => cs

/-- Accumulated output of the builder: the upload lookup map being filled
and the folders whose remote contents have been listed, in call order. -/
structure FillAcc where
  map : List (Path × FileMetaData)
  listed : List Path
deriving Repr, DecidableEq

mutual

/-- Model of `fillUploadLookupMap` (service.go), specialised to one element of its
`localFolders` slice: skip the folder and its whole subtree unless
`localPathIsNeeded`; record the base-folder entry when the folder is a base
folder not yet in the map (`baseEntry` carries its id); index the folder's
remote listing (`children`, the data the connection call returns for its
id); then recurse into the children whose MimeType contains `folder`. -/
def fillFolder (ftu : List Path) (folder : Path) (baseEntry : Option String)
    (children : List RNode) (acc : FillAcc) : FillAcc :=
  if !(localPathIsNeeded folder ftu) then acc
  else
    let acc1 : FillAcc :=
      { map := (match baseEntry with
          | some bid => acc.map ++ [(folder, { FileMetaData.zero with id := bid })]
          | none => acc.map)
          ++ children.map (fun c => (folder ++ [c.meta.name], c.meta))
        listed := acc.listed ++ [folder] }
    fillChildren ftu folder children acc1
termination_by 2 * sizeOf children + 1
decreasing_by simp_wf

/-- The recursive second loop of `fillUploadLookupMap`: descend into each
listed child whose MimeType contains `folder`. -/
def fillChildren (ftu : List Path) (folder : Path) : List RNode → FillAcc → FillAcc
  | [], acc => acc
  | c :: cs, acc =>
    let acc1 :=
      if strContains c.meta.mimeType "folder" then
        fillFolder ftu (folder ++ [c.meta.name]) none c.children acc
      else acc
    fillChildren ftu folder cs acc1
termination_by l => 2 * sizeOf l
decreasing_by
  all_goals simp_wf
  all_goals cases c with
  | mk m cs2 => simp [RNode.children]; omega

end

/-- A base folder from `config/folder-ids.txt`: its local path, remote id,
and the remote listing of that id. -/
structure BaseFolder where
  path : Path
  id : String
  children : List RNode

/-- The top-level call `fillUploadLookupMap(service.getBaseFolderSlice())`
on a freshly cleared upload map. -/
def fillUploadTop (ftu : List Path) (bases : List BaseFolder) : FillAcc :=
  bases.foldl (fun acc b => fillFolder ftu b.path (some b.id) b.children acc) ⟨[], []⟩

/-! ### The cycle driver

One iteration of the `for` loop in `main` is a pure function of the
starting state and a per-cycle environment that records the result of
every external call the iteration makes.  `continue` is modelled as an
early exit carrying the state mutated so far; the network-filling
functions (`fillUploadLookupMap`, `fillDownloadLookupMap`,
`getRemoteModifiedFiles`) are oracles delivering either the map/listing
they would build or an error. -/

/-- One entry the `filepath.Walk` callback of `localFilesModified` sees
this cycle: the walked path, `fileInfo.Name()` and `fileInfo.ModTime()`. -/
structure WalkEntry where
  path : Path
  name : String
  modTime : Instant
deriving Repr, DecidableEq

/-- Results of all external calls one cycle can make. -/
structure CycleEnv where
  walkEntries : List WalkEntry
  fillUpload1 : Option (List (Path × FileMetaData))
  genId : Path → Option String
  createFolderOk : Path → Bool
  uploadOk : Path → Bool
  fs : LocalFs
  parseTime : String → Option Instant
  remoteModified : Option (List FileMetaData)
  fillDownload1 : Option (List (Path × FileMetaData))
  mkdirOk : Path → Bool
  downloadOk : Path → Bool
  fillUpload2 : Option (List (Path × FileMetaData))
  fillDownload2 : Option (List (Path × FileMetaData))
  nowHour : Int
  now : Instant

/-- Observable events of one cycle: which executors ran, whether the
upload phase (index build or `handleUploads`) returned an error, whether
anything was written remotely or locally, whether the verifier ran, and
whether the cycle was aborted by a `continue`. -/
structure CycleTrace where
  uploadPhaseErr : Bool
  handleUploadsCalled : Bool
  handleDownloadsCalled : Bool
  verifierRan : Bool
  wrote : Bool
  aborted : Bool
deriving Repr, DecidableEq

/-- The trace at the top of a cycle. -/
def CycleTrace.start : CycleTrace :=
  ⟨false, false, false, false, false, false⟩

/-- The walk callback of `localFilesModified` (service.go) applied to one
entry: `desktop.ini` is ignored; a path not yet in `localFiles` is added to
both sets and its timestamp saved; a known path is marked for upload when
its mod time is newer than `verifiedAt`. -/
def walkCheckForModified (s : SState) (e : WalkEntry) : SState :=
  if e.name = "desktop.ini" then s
  else if e.path ∈ s.localFiles then
    if e.modTime - s.verifiedAt > 0 then
      saveTimestamp e.modTime { s with filesToUpload := insertPath e.path s.filesToUpload }
    else s
  else
    saveTimestamp e.modTime
      { s with filesToUpload := insertPath e.path s.filesToUpload,
               localFiles := insertPath e.path s.localFiles }

/-- Model of `localFilesModified` (service.go): walk all base folders and report
whether the pending-upload set is nonempty afterwards. -/
def localFilesModified (env : CycleEnv) (s : SState) : SState × Bool :=
  let s1 := env.walkEntries.foldl walkCheckForModified s
  (s1, decide (s1.filesToUpload ≠ []))

/-- State threaded through the two creation/upload loops of
`handleUploads`: the evolving upload map, the paths for which a remote
write was attempted (in order), and whether any write succeeded. -/
structure UpLoopSt where
  uploadLookupMap : List (Path × FileMetaData)
  attempts : List Path
  wrote : Bool
deriving Repr, DecidableEq

/-- Model of `handleCreate` (service.go) for one path: generate an id, look up the
parent (`filepath.Dir`, i.e. the path minus its last component) in the
upload map — an absent parent is the `parent not in map yet` error — then
create the remote folder (recording it in the upload map) or upload the
file.  The file branch collapses its open/read/upload failures into the
single `uploadOk` outcome, since each of them returns the error alike. -/
def handleCreate (env : CycleEnv) (localPath : Path) (info : LocalInfo)
    (uploadLookupMap : List (Path × FileMetaData)) :
    Except String (List (Path × FileMetaData) × Bool) :=
  match env.genId localPath with
  | none => .error "failed to generate id"
  | some newId =>
    match alookup localPath.dropLast uploadLookupMap with
    | none => .error "parent not in map yet"
    | some _ =>
      if info.isDir then
        if env.createFolderOk localPath then
          .ok (ainsert localPath
            { id := newId, name := info.name,
              mimeType := "application/vnd.google-apps.folder",
              modifiedTime := "", md5Checksum := "", parents := [] } uploadLookupMap, true)
        else .error "failed to create folder"
      else
        if env.uploadOk localPath then .ok (uploadLookupMap, true)
        else .error "failed to upload file"

/-- Lexicographic order on character lists (the byte order `sort.Strings`
uses, restricted to the pure-ASCII paths at hand). -/
def charListLe : List Char → List Char → Bool
  | [], _ => true
  | _ :: _, [] => false
  | a :: as, b :: bs => if a = b then charListLe as bs else decide (a < b)

/-- Comparison used by `sort.Strings(foldersToCreate)`, on the joined
string representation of the paths. -/
def pathLe (a b : Path) : Bool :=
  charListLe (String.intercalate "/" a).toList (String.intercalate "/" b).toList

/-- Insertion step of the sort. -/
def insertSorted (p : Path) : List Path → List Path
  | [] => [p]
  | q :: rest => if pathLe p q then p :: q :: rest else q :: insertSorted p rest

/-- Model of `sort.Strings`, modelled as insertion sort on the joined strings. -/
def sortPaths (l : List Path) : List Path :=
  l.foldr insertSorted []

/-- The folder-creation loop of `handleUploads`: folders already in the
upload map are skipped, the rest go through `handleCreate`; an error
aborts the whole batch (`return err`). -/
def createFoldersLoop (env : CycleEnv) : List Path → UpLoopSt → Except UpLoopSt UpLoopSt
  | [], st => .ok st
  | p :: rest, st =>
    match alookup p st.uploadLookupMap with
    | some _ => createFoldersLoop env rest st
    | none =>
      let info := (env.fs.stat p).getD defaultLocalInfo
      match handleCreate env p info st.uploadLookupMap with
      | .ok (m, w) =>
        createFoldersLoop env rest
          { uploadLookupMap := m, attempts := st.attempts ++ [p], wrote := st.wrote || w }
      | .error _ => .error { st with attempts := st.attempts ++ [p] }

/-- The file loop of `handleUploads`: directories were already handled; a
file absent from the upload map goes through `handleCreate`; a present one
is re-uploaded (`handleSingleUpload`) only when the local mod time is newer
than the indexed one by more than half a second and the MD5s differ.  The
float test `diff.Seconds() > 0.5` is modelled exactly on the nanosecond
integers as `2 * diff > 1s`. -/
def uploadFilesLoop (env : CycleEnv) : List Path → UpLoopSt → Except UpLoopSt UpLoopSt
  | [], st => .ok st
  | p :: rest, st =>
    let info := (env.fs.stat p).getD defaultLocalInfo
    if info.isDir then uploadFilesLoop env rest st
    else
      match alookup p st.uploadLookupMap with
      | none =>
        match handleCreate env p info st.uploadLookupMap with
        | .ok (m, w) =>
          uploadFilesLoop env rest
            { uploadLookupMap := m, attempts := st.attempts ++ [p], wrote := st.wrote || w }
        | .error _ => .error { st with attempts := st.attempts ++ [p] }
      | some remote =>
        let remoteMod := (env.parseTime remote.modifiedTime).getD goZeroTime
        if 2 * (info.modTime - remoteMod) > nsPerSecond then
          if env.fs.md5 p = remote.md5Checksum then uploadFilesLoop env rest st
          else if env.uploadOk p then
            uploadFilesLoop env rest { st with attempts := st.attempts ++ [p], wrote := true }
          else .error { st with attempts := st.attempts ++ [p] }
        else uploadFilesLoop env rest st

/-- Input slice of the state that `handleUploads` reads and writes. -/
structure UploadsIn where
  filesToUpload : List Path
  localFiles : List Path
  uploadLookupMap : List (Path × FileMetaData)
deriving Repr, DecidableEq

/-- Output of `handleUploads`. -/
structure UploadsOut where
  filesToUpload : List Path
  localFiles : List Path
  uploadLookupMap : List (Path × FileMetaData)
  err : Bool
  attempts : List Path
  wrote : Bool
deriving Repr, DecidableEq

/-- Model of `handleUploads` (service.go).  The first loop stats every pending path:
paths whose `os.Stat` fails are dropped from both `filesToUpload` and
`localFiles` (they disappeared before they could be uploaded); the
directories among the survivors are sorted and created first; then the
file loop runs.  Any `handleCreate`/`handleSingleUpload` error is returned
immediately, aborting the rest of the batch. -/
def handleUploads (env : CycleEnv) (inp : UploadsIn) : UploadsOut :=
  let ftu := inp.filesToUpload.filter fun p => (env.fs.stat p).isSome
  let removed := inp.filesToUpload.filter fun p => (env.fs.stat p).isNone
  let lf := inp.localFiles.filter fun q => decide (q ∉ removed)
  let folders := ftu.filter fun p => ((env.fs.stat p).getD defaultLocalInfo).isDir
  match createFoldersLoop env (sortPaths folders) ⟨inp.uploadLookupMap, [], false⟩ with
  | .error st =>
    { filesToUpload := ftu, localFiles := lf, uploadLookupMap := st.uploadLookupMap,
      err := true, attempts := st.attempts, wrote := st.wrote }
  | .ok st =>
    match uploadFilesLoop env ftu st with
    | .error st2 =>
      { filesToUpload := ftu, localFiles := lf, uploadLookupMap := st2.uploadLookupMap,
        err := true, attempts := st2.attempts, wrote := st2.wrote }
    | .ok st2 =>
      { filesToUpload := ftu, localFiles := lf, uploadLookupMap := st2.uploadLookupMap,
        err := false, attempts := st2.attempts, wrote := st2.wrote }

/-- One entry of the `checkForDownloads` loop (service.go): a missing local
path is queued for download; a local directory is dequeued; a file is
queued when the remote mod time is newer by more than half a second
(modelled exactly as `2 * diff > 1s` on nanoseconds) and the MD5s differ,
dequeued otherwise. -/
def checkForDownloadsStep (env : CycleEnv) (ftd : List (Path × FileMetaData))
    (kv : Path × FileMetaData) : List (Path × FileMetaData) :=
  match env.fs.stat kv.1 with
  | none => ainsert kv.1 kv.2 ftd
  | some info =>
    if info.isDir then aerase kv.1 ftd
    else
      let remoteMod := (env.parseTime kv.2.modifiedTime).getD goZeroTime
      if 2 * (remoteMod - info.modTime) > nsPerSecond then
        if env.fs.md5 kv.1 = kv.2.md5Checksum then aerase kv.1 ftd else ainsert kv.1 kv.2 ftd
      else aerase kv.1 ftd

/-- Model of `checkForDownloads`: the loop over the download lookup map. -/
def checkForDownloads (env : CycleEnv) (downloadLookupMap : List (Path × FileMetaData))
    (ftd : List (Path × FileMetaData)) : List (Path × FileMetaData) :=
  downloadLookupMap.foldl (checkForDownloadsStep env) ftd

/-- Model of `handleDownloads` (service.go): create the pending folders first
(sorted by path), then download the pending files; each success records the
path in `localFiles`; the pending-download map itself is left untouched
(verification prunes it).  Returns the new `localFiles` and whether
anything was downloaded. -/
def handleDownloads (env : CycleEnv) (ftd : List (Path × FileMetaData))
    (localFiles : List Path) : List Path × Bool :=
  let foldersToCreate :=
    sortPaths ((ftd.filter fun kv => strContains kv.2.mimeType "folder").map Prod.fst)
  let step1 := foldersToCreate.foldl
    (fun (acc : List Path × Bool) p =>
      if env.mkdirOk p then (insertPath p acc.1, true) else acc)
    (localFiles, false)
  let step2 := ftd.foldl
    (fun (acc : List Path × Bool) kv =>
      if strContains kv.2.mimeType "folder" then acc
      else if env.downloadOk kv.1 then (insertPath kv.1 acc.1, true) else acc)
    step1
  step2

/-- Top of the cycle: `if !verified { resetVerifiedTime }` followed by the
local scan. -/
def topSection (env : CycleEnv) (s : SState) : SState × Bool :=
  let s1 := if !s.verified then resetVerifiedTime s else s
  localFilesModified env s1

/-- The upload section of the cycle: when the scan found local
modifications, clear and rebuild the upload map (a build error aborts the
cycle) and run `handleUploads` (an executor error aborts the cycle —
a half-uploaded file must not be downloaded back over itself). -/
def uploadSection (env : CycleEnv) (s : SState) (tr : CycleTrace) (localModified : Bool) :
    Except (SState × CycleTrace) (SState × CycleTrace) :=
  if localModified then
    match env.fillUpload1 with
    | none => .error (s, { tr with uploadPhaseErr := true, aborted := true })
    | some m =>
      let r := handleUploads env ⟨s.filesToUpload, s.localFiles, m⟩
      let s2 := { s with filesToUpload := r.filesToUpload, localFiles := r.localFiles,
                         uploadLookupMap := r.uploadLookupMap }
      let tr1 := { tr with handleUploadsCalled := true, wrote := tr.wrote || r.wrote }
      if r.err then .error (s2, { tr1 with uploadPhaseErr := true, aborted := true })
      else .ok (s2, tr1)
  else .ok (s, tr)

/-- Tail of the download section: `handleDownloads` runs whenever the
pending-download map is nonempty (also for re-downloads left over from an
unverified previous cycle). -/
def afterDownloads (env : CycleEnv) (s : SState) (tr : CycleTrace) : SState × CycleTrace :=
  if s.filesToDownload ≠ [] then
    let r := handleDownloads env s.filesToDownload s.localFiles
    ({ s with localFiles := r.1 },
     { tr with handleDownloadsCalled := true, wrote := tr.wrote || r.2 })
  else (s, tr)

/-- The per-file step of `getRemoteModifiedFiles` (service.go): parse the
remote `modifiedTime` and, when it parses, save it. -/
def saveRemoteStamp (env : CycleEnv) (acc : SState) (f : FileMetaData) : SState :=
  match env.parseTime f.modifiedTime with
  | some t => saveTimestamp t acc
  | none => acc

/-- The download section of the cycle: fetch the remote modification
listing (an error aborts the cycle), save every parsable remote timestamp,
and when the listing is nonempty clear and rebuild the download map (an
error aborts the cycle) and run `checkForDownloads`; finally run
`handleDownloads` when anything is pending. -/
def downloadSection (env : CycleEnv) (s : SState) (tr : CycleTrace) :
    Except (SState × CycleTrace) (SState × CycleTrace) :=
  match env.remoteModified with
  | none => .error (s, { tr with aborted := true })
  | some files =>
    let s1 := files.foldl (saveRemoteStamp env) s
    if files ≠ [] then
      match env.fillDownload1 with
      | none => .error (s1, { tr with aborted := true })
      | some m =>
        let s2 := { s1 with downloadLookupMap := m }
        let s3 := { s2 with filesToDownload := checkForDownloads env m s2.filesToDownload }
        .ok (afterDownloads env s3 tr)
    else .ok (afterDownloads env s1 tr)

/-- The verification gate: when anything is pending, run the verifier on
both sets; if both come back empty, advance the barrier
(`setVerifiedTime`), clear both lookup maps, and set `verified`. -/
def verifyGate (env : CycleEnv) (s : SState) (tr : CycleTrace) : SState × CycleTrace :=
  if s.filesToUpload ≠ [] ∨ s.filesToDownload ≠ [] then
    let ftu := verifyUploads env.fs s.uploadLookupMap s.filesToUpload
    let ftd := verifyDownloads env.fs s.downloadLookupMap s.filesToDownload
    let s1 := { s with filesToUpload := ftu, filesToDownload := ftd }
    let tr1 := { tr with verifierRan := true }
    if ftu = [] ∧ ftd = [] then
      (setVerifiedTime { s1 with uploadLookupMap := [], downloadLookupMap := [], verified := true },
       tr1)
    else (s1, tr1)
  else (s, tr)

/-- Second half of the verify section: rebuild the download map when
downloads are pending (an error aborts the cycle), then the gate. -/
def verifySection2 (env : CycleEnv) (s : SState) (tr : CycleTrace) :
    Except (SState × CycleTrace) (SState × CycleTrace) :=
  if s.filesToDownload ≠ [] then
    match env.fillDownload2 with
    | none => .error (s, { tr with aborted := true })
    | some m => .ok (verifyGate env { s with downloadLookupMap := m } tr)
  else .ok (verifyGate env s tr)

/-- The verify section: rebuild the upload map when uploads are pending (an
error aborts the cycle), then `verifySection2`. -/
def verifySection (env : CycleEnv) (s : SState) (tr : CycleTrace) :
    Except (SState × CycleTrace) (SState × CycleTrace) :=
  if s.filesToUpload ≠ [] then
    match env.fillUpload2 with
    | none => .error (s, { tr with aborted := true })
    | some m => verifySection2 env { s with uploadLookupMap := m } tr
  else verifySection2 env s tr

/-- The daily-cleanup gate: at wall-clock hour 2, more than 14 hours after
the previous clean (`diff.Hours() > 14`, exact on nanoseconds), record the
clean time and drop `verified` (the cleanup pass itself only touches the
remote side). -/
def cleanupSection (env : CycleEnv) (s : SState) (tr : CycleTrace) : SState × CycleTrace :=
  if env.nowHour = 2 ∧ env.now - s.cleanedAt > 14 * 3600 * nsPerSecond then
    ({ s with cleanedAt := env.now, verified := false }, tr)
  else (s, tr)

/-- One full iteration of the cycle driver's `for` loop. -/
def runCycle (env : CycleEnv) (s : SState) : SState × CycleTrace :=
  let t := topSection env s
  match uploadSection env t.1 CycleTrace.start t.2 with
  | .error out => out
  | .ok st1 =>
    match downloadSection env st1.1 st1.2 with
    | .error out => out
    | .ok st2 =>
      match verifySection env st2.1 st2.2 with
      | .error out => out
      | .ok st3 => cleanupSection env st3.1 st3.2

/-- The cycle driver run over a list of per-cycle environments. -/
def runCycles (s : SState) : List CycleEnv → SState
  | [] => s
  | e :: es => runCycles (runCycle e s).1 es

/-- The state/trace pair a section produced, whether it aborted the cycle
(`error`, i.e. `continue`) or passed it on (`ok`). -/
def outPair (r : Except (SState × CycleTrace) (SState × CycleTrace)) : SState × CycleTrace :=
  match r with
  | .error x => x
  | .ok x => x

/-- The barrier-pair relation the code actually maintains:
`verifiedAtPlusOneSec` is either `verifiedAt + 1s` (after `setVerifiedTime`)
or `verifiedAt` itself (initially, and after `resetVerifiedTime`). -/
def BarrierPairInv (s : SState) : Prop :=
  s.verifiedAtPlusOneSec = s.verifiedAt + nsPerSecond ∨ s.verifiedAtPlusOneSec = s.verifiedAt

/-! ### Concrete fixtures used to exercise the model -/

/-- A pending local file used by the concrete scenarios. -/
def pOne : Path := ["base", "f.txt"]

/-- Remote metadata of `pOne` as the index reports it. -/
def metaOne : FileMetaData := ⟨"idP", "f.txt", "text/plain", "T1000", "abc", []⟩

/-- Remote metadata of the base folder. -/
def metaBase : FileMetaData := ⟨"id0", "base", "application/vnd.google-apps.folder", "", "", []⟩

/-- A local filesystem containing exactly `pOne` with MD5 `abc`. -/
def fsOne : LocalFs :=
  ⟨fun p => if p = pOne then some ⟨false, "f.txt", 1000, 10⟩ else none,
   fun p => if p = pOne then "abc" else ""⟩

/-- A cycle in which `pOne` appears locally, already matches the remote
side, and verification succeeds without writing anything. -/
def envVerify : CycleEnv :=
  { walkEntries := [⟨pOne, "f.txt", 1000⟩]
    fillUpload1 := some [(["base"], metaBase), (pOne, metaOne)]
    genId := fun _ => none
    createFolderOk := fun _ => false
    uploadOk := fun _ => false
    fs := fsOne
    parseTime := fun s => if s = "T1000" then some 1000 else none
    remoteModified := some []
    fillDownload1 := none
    mkdirOk := fun _ => false
    downloadOk := fun _ => false
    fillUpload2 := some [(["base"], metaBase), (pOne, metaOne)]
    fillDownload2 := none
    nowHour := 0
    now := 0 }

/-- A cycle in which `pOne` appears locally, is missing remotely, and is
uploaded; the verifier then runs in the same cycle. -/
def envWrite : CycleEnv :=
  { envVerify with
    fillUpload1 := some [(["base"], metaBase)]
    genId := fun _ => some "newid"
    uploadOk := fun _ => true }

/-- A cycle in which the scan finds `pOne` but the upload-index build
fails, aborting the cycle before the download phase. -/
def envUploadErr : CycleEnv :=
  { envVerify with fillUpload1 := none }

/-- First pending file of the two-entry upload batch. -/
def pA : Path := ["base", "a.txt"]

/-- Second pending file of the two-entry upload batch. -/
def pB : Path := ["base", "b.txt"]

/-- Stat result shared by both batch entries. -/
def infoAB : LocalInfo := ⟨false, "x", 1000, 10⟩

/-- An environment in which both batch entries stat as plain files, ids
generate fine, but the upload map is empty so every parent is missing. -/
def envBatch : CycleEnv :=
  { envVerify with
    fs := ⟨fun p => if p = pA ∨ p = pB then some infoAB else none, fun _ => ""⟩
    genId := fun _ => some "gid" }

/-! ## Theorems -/

/-! ### Startup parsing (C10) -/

/-- The one-element split happens exactly on lines with no `=`. -/
theorem splitFirstEq_none_iff (l : List Char) : splitFirstEq l = none ↔ '=' ∉ l := by
  induction l with
  | nil => simp [splitFirstEq]
  | cons c rest ih =>
    rw [splitFirstEq]
    by_cases hc : c = '='
    · subst hc; simp
    · rw [if_neg hc]
      have hne : ¬ ('=' = c) := fun hh => hc hh.symm
      cases h : splitFirstEq rest with
      | none =>
        have hnr : '=' ∉ rest := ih.mp h
        simp [List.mem_cons, hnr, hne]
      | some ab =>
        have hr : '=' ∈ rest := by
          by_contra hnot
          exact Option.noConfusion (h.symm.trans (ih.mpr hnot))
        simp [List.mem_cons, hr]

/-- Lemma: `strings.Contains line "="` agrees with the split having found an `=`. -/
theorem strContains_eq_iff (s : String) :
    strContains s "=" = false ↔ splitFirstEq s.toList = none := by
  have hpat : ("=" : String).toList = ['='] := rfl
  rw [strContains, hpat, splitFirstEq_none_iff]
  have hmem : ∀ l : List Char, containsSeq ['='] l = true ↔ '=' ∈ l := by
    intro l
    induction l with
    | nil => simp [containsSeq]
    | cons c rest ih => simp [containsSeq, startsChk, ih, List.mem_cons]
  rw [← Bool.not_eq_true, hmem]

/-- C10: parsing of `config/folder-ids.txt` at startup is total exactly when
every line contains an `=`: for any line without one (an empty line
included), `initializeService` splits the line into a one-element slice and
unconditionally reads element `[1]`, an out-of-bounds access, so startup
panics (modelled as `none`) instead of reaching a guarded error path. -/
theorem c10_folder_ids_parse (lines : List String) :
    parseFolderIds lines = none ↔ ∃ line ∈ lines, strContains line "=" = false := by
  induction lines with
  | nil => simp [parseFolderIds]
  | cons line rest ih =>
    rw [parseFolderIds, splitN2Eq]
    cases h : splitFirstEq line.toList with
    | none =>
      have hline : strContains line "=" = false := (strContains_eq_iff line).mpr h
      exact iff_of_true rfl ⟨line, List.mem_cons_self line rest, hline⟩
    | some ab =>
      obtain ⟨a, b⟩ := ab
      have hline : strContains line "=" = true := by
        by_contra hf
        rw [Bool.not_eq_true, strContains_eq_iff] at hf
        exact Option.noConfusion (h.symm.trans hf)
      cases hr : parseFolderIds rest with
      | none =>
        obtain ⟨x, hx, hpx⟩ := ih.mp hr
        exact iff_of_true rfl ⟨x, List.mem_cons_of_mem _ hx, hpx⟩
      | some m =>
        refine iff_of_false (by simp) ?_
        rintro ⟨x, hx, hpx⟩
        rcases List.mem_cons.mp hx with rfl | hx2
        · rw [hline] at hpx; cases hpx
        · exact Option.noConfusion (hr.symm.trans (ih.mpr ⟨x, hx2, hpx⟩))

/-! ### Cleanup retention (C9) -/

/-- C9 counterexample: with an empty general index (reachable with an empty
`config/folder-ids.txt`, since `fillLookupMap` over no base folders returns
no error and an empty map), an owned item with no parents at all is deleted
by `removeDeletedFiles`, while the claim says it is retained: the claimed
equivalence fails at this input. -/
theorem c9_counterexample :
    ¬ (retainItem ⟨"Y", "y", "", "", "", []⟩ [] = true ↔
        ((⟨"Y", "y", "", "", "", []⟩ : FileMetaData).parents = [] ∨
         ∃ e ∈ ([] : List FileMetaData),
           (⟨"Y", "y", "", "", "", []⟩ : FileMetaData).parents.head? = some e.id)) := by
  decide

/-- C9 (amended): during cleanup an owned item is deleted iff NO entry of
the freshly built general index satisfies `no parents or first parent =
entry id`; equivalently, it is retained iff the index is nonempty and (the
item has no parents, or its first parent id matches some entry).  With an
empty index every owned item is deleted, parentless or not; for a nonempty
index this coincides with the original claim. -/
theorem c9_amended (index owned : List FileMetaData) (f : FileMetaData) :
    f ∈ filesToDelete index owned ↔
      f ∈ owned ∧ ¬ ∃ e ∈ index, (f.parents = [] ∨ f.parents.head? = some e.id) := by
  rw [filesToDelete, List.mem_filter]
  have : retainItem f index = true ↔ ∃ e ∈ index, (f.parents = [] ∨ f.parents.head? = some e.id) := by
    rw [retainItem, List.any_eq_true]
    cases hp : f.parents with
    | nil => simp
    | cons p0 ps => simp
  simp [← this]

/-! ### The verifier (C4) -/

/-- C4 counterexample: a pending upload whose `os.Stat` fails is removed
from `PendingUploads` even though its lookup in the upload index fails, so
removal is not equivalent to `lookup succeeds and MD5s match (or directory
matching a remote folder)`. -/
theorem c4_counterexample :
    ¬ ((["gone.txt"] ∈ ([["gone.txt"]] : List Path) ∧
        ["gone.txt"] ∉ verifyUploads ⟨fun _ => none, fun _ => ""⟩ [] [["gone.txt"]]) ↔
       (alookup ["gone.txt"] ([] : List (Path × FileMetaData))).isSome = true) := by
  decide

/-- C4 (amended): during verification a path is removed from
`PendingUploads` iff its `os.Stat` fails, or the index lookup succeeds and
the local entry is a directory (whether or not the remote is a folder) or
the local MD5 equals the indexed MD5.  A pending download is removed iff
its (zero-defaulted) index entry has a folder MimeType and the local path
stats as a directory, or has a non-folder MimeType and the local MD5 equals
that entry's MD5 — a path missing from the download index yields the zero
entry, so it is removed exactly when the local MD5 is the empty string. -/
theorem c4_amended (fs : LocalFs) (umap dmap : List (Path × FileMetaData))
    (ups : List Path) (dls : List (Path × FileMetaData)) (p : Path) (v : FileMetaData) :
    ((p ∈ ups ∧ p ∉ verifyUploads fs umap ups) ↔
      p ∈ ups ∧
        (fs.stat p = none ∨
         ∃ info m, fs.stat p = some info ∧ alookup p umap = some m ∧
           (info.isDir = true ∨ fs.md5 p = m.md5Checksum)))
    ∧ (((p, v) ∈ dls ∧ (p, v) ∉ verifyDownloads fs dmap dls) ↔
        (p, v) ∈ dls ∧
          (let m := (alookup p dmap).getD FileMetaData.zero
           (strContains m.mimeType "folder" = true ∧
             ∃ info, fs.stat p = some info ∧ info.isDir = true) ∨
           (strContains m.mimeType "folder" = false ∧ fs.md5 p = m.md5Checksum))) := by
  constructor
  · rw [verifyUploads]
    constructor
    · rintro ⟨hmem, hnot⟩
      refine ⟨hmem, ?_⟩
      rw [List.mem_filter] at hnot
      push_neg at hnot
      have hfalse := hnot hmem
      cases hstat : fs.stat p with
      | none => exact Or.inl rfl
      | some info =>
        cases hlook : alookup p umap with
        | none => rw [hstat, hlook] at hfalse; simp at hfalse
        | some m =>
          refine Or.inr ⟨info, m, rfl, rfl, ?_⟩
          rw [hstat, hlook] at hfalse
          by_cases hdir : info.isDir
          · exact Or.inl hdir
          · simp [hdir] at hfalse
            by_cases hmd : fs.md5 p = m.md5Checksum
            · exact Or.inr hmd
            · simp [hmd] at hfalse
    · rintro ⟨hmem, hcond⟩
      refine ⟨hmem, ?_⟩
      rw [List.mem_filter]
      rintro ⟨-, hpred⟩
      rcases hcond with hstat | ⟨info, m, hstat, hlook, hrest⟩
      · rw [hstat] at hpred; simp at hpred
      · rw [hstat, hlook] at hpred
        rcases hrest with hdir | hmd
        · simp [hdir] at hpred
        · by_cases hdir : info.isDir
          · simp [hdir] at hpred
          · simp [hdir, hmd] at hpred
  · rw [verifyDownloads]
    constructor
    · rintro ⟨hmem, hnot⟩
      refine ⟨hmem, ?_⟩
      rw [List.mem_filter] at hnot
      push_neg at hnot
      have hfalse := hnot hmem
      simp only at hfalse
      by_cases hmime :
          strContains ((alookup p dmap).getD FileMetaData.zero).mimeType "folder" = true
      · rw [if_pos hmime] at hfalse
        refine Or.inl ⟨hmime, ?_⟩
        cases hstat : fs.stat p with
        | none => rw [hstat] at hfalse; simp at hfalse
        | some info =>
          rw [hstat] at hfalse
          simp at hfalse
          exact ⟨info, rfl, hfalse⟩
      · rw [if_neg hmime] at hfalse
        simp at hfalse hmime
        exact Or.inr ⟨hmime, hfalse⟩
    · rintro ⟨hmem, hcond⟩
      refine ⟨hmem, ?_⟩
      rw [List.mem_filter]
      rintro ⟨-, hpred⟩
      simp only at hpred
      rcases hcond with ⟨hmime, info, hstat, hdir⟩ | ⟨hmime, hmd⟩
      · rw [if_pos hmime, hstat] at hpred; simp [hdir] at hpred
      · rw [if_neg (by simp [hmime])] at hpred
        simp [hmd] at hpred

/-! ### Resumable uploads (C3) -/

/-- C3: the status probe after a failed attempt correctly acknowledges
`N + 1 = 4194304` bytes from `Range: bytes=0-4194303`, but the retry loop
discards it — the Go recovery branches shadow `bytesUploaded` with `:=` —
so attempt 2 seeks back to offset 0, sends `Content-Length = fileSize` and
no `Content-Range` header at all, instead of resuming from 4194304 as the
claim states. -/
theorem c3_code_evaluation :
    getBytesUploaded ⟨false, false, false, 308, some "bytes=0-4194303"⟩ 12582912 = .ok 4194304
    ∧ uploadLargeFileStep2 12582912
        [⟨false, false, 500, false, ⟨false, false, false, 308, some "bytes=0-4194303"⟩⟩,
         ⟨false, false, 200, false, ⟨false, false, false, 308, some "bytes=0-4194303"⟩⟩]
      = .ok [⟨0, 12582912, none⟩, ⟨0, 12582912, none⟩] :=
  ⟨rfl, rfl⟩

/-! ### The barrier pair (C5 counterexample) -/

/-- C5 counterexample: immediately after the barrier reset,
`verifiedAtPlusOneSec` equals `verifiedAt` (both are the sentinel), not
`verifiedAt + 1s`: `resetVerifiedTime` assigns `service.verifiedAt` to
`verifiedAtPlusOneSec` without adding the second. -/
theorem c5_counterexample :
    (resetVerifiedTime (initState [])).verifiedAtPlusOneSec
      = (resetVerifiedTime (initState [])).verifiedAt
    ∧ (resetVerifiedTime (initState [])).verifiedAtPlusOneSec
      ≠ (resetVerifiedTime (initState [])).verifiedAt + nsPerSecond := by
  refine ⟨rfl, ?_⟩
  decide

/-! ### Cycle-section lemmas -/

/-- Closed form of `saveTimestamp`: only `mostRecentTimestampSeen` moves. -/
theorem saveTimestamp_eq (ts : Instant) (s : SState) :
    saveTimestamp ts s =
      { s with mostRecentTimestampSeen :=
          if ts - s.mostRecentTimestampSeen > 0 then ts else s.mostRecentTimestampSeen } := by
  unfold saveTimestamp
  split <;> simp_all

/-- Lemma: `saveTimestamp` never lowers `mostRecentTimestampSeen`. -/
theorem saveTimestamp_mono (ts : Instant) (s : SState) :
    s.mostRecentTimestampSeen ≤ (saveTimestamp ts s).mostRecentTimestampSeen := by
  unfold saveTimestamp
  by_cases h : ts - s.mostRecentTimestampSeen > 0
  · rw [if_pos h]
    show s.mostRecentTimestampSeen ≤ ts
    exact le_of_lt (sub_pos.mp h)
  · rw [if_neg h]

/-- The walk callback leaves the barrier fields and the flag alone. -/
theorem walkCheck_const (s : SState) (e : WalkEntry) :
    (walkCheckForModified s e).verifiedAt = s.verifiedAt
    ∧ (walkCheckForModified s e).verifiedAtPlusOneSec = s.verifiedAtPlusOneSec
    ∧ (walkCheckForModified s e).verified = s.verified := by
  unfold walkCheckForModified
  repeat' split
  all_goals simp [saveTimestamp_eq]

/-- The walk callback never lowers `mostRecentTimestampSeen`. -/
theorem walkCheck_mono (s : SState) (e : WalkEntry) :
    s.mostRecentTimestampSeen ≤ (walkCheckForModified s e).mostRecentTimestampSeen := by
  unfold walkCheckForModified
  split
  · exact le_refl _
  split
  · split
    · exact saveTimestamp_mono _ _
    · exact le_refl _
  · exact saveTimestamp_mono _ _

/-- The whole walk leaves the barrier fields and the flag alone. -/
theorem walkFold_const (l : List WalkEntry) :
    ∀ s : SState,
      (l.foldl walkCheckForModified s).verifiedAt = s.verifiedAt
      ∧ (l.foldl walkCheckForModified s).verifiedAtPlusOneSec = s.verifiedAtPlusOneSec
      ∧ (l.foldl walkCheckForModified s).verified = s.verified := by
  induction l with
  | nil => exact fun s => ⟨rfl, rfl, rfl⟩
  | cons e l ih =>
    intro s
    have h1 := walkCheck_const s e
    have h2 := ih (walkCheckForModified s e)
    exact ⟨h2.1.trans h1.1, h2.2.1.trans h1.2.1, h2.2.2.trans h1.2.2⟩

/-- The whole walk never lowers `mostRecentTimestampSeen`. -/
theorem walkFold_mono (l : List WalkEntry) :
    ∀ s : SState,
      s.mostRecentTimestampSeen ≤ (l.foldl walkCheckForModified s).mostRecentTimestampSeen := by
  induction l with
  | nil => exact fun s => le_refl _
  | cons e l ih =>
    intro s
    exact le_trans (walkCheck_mono s e) (ih (walkCheckForModified s e))

/-- One remote-timestamp step leaves every field except
`mostRecentTimestampSeen` alone. -/
theorem saveRemoteStamp_const (env : CycleEnv) (x : FileMetaData) (t : SState) :
    (saveRemoteStamp env t x).verifiedAt = t.verifiedAt
    ∧ (saveRemoteStamp env t x).verifiedAtPlusOneSec = t.verifiedAtPlusOneSec
    ∧ (saveRemoteStamp env t x).verified = t.verified
    ∧ (saveRemoteStamp env t x).filesToUpload = t.filesToUpload
    ∧ (saveRemoteStamp env t x).filesToDownload = t.filesToDownload
    ∧ (saveRemoteStamp env t x).localFiles = t.localFiles
    ∧ (saveRemoteStamp env t x).cleanedAt = t.cleanedAt := by
  unfold saveRemoteStamp
  cases env.parseTime x.modifiedTime <;> simp [saveTimestamp_eq]

/-- One remote-timestamp step never lowers `mostRecentTimestampSeen`. -/
theorem saveRemoteStamp_mono (env : CycleEnv) (x : FileMetaData) (t : SState) :
    t.mostRecentTimestampSeen ≤ (saveRemoteStamp env t x).mostRecentTimestampSeen := by
  unfold saveRemoteStamp
  cases env.parseTime x.modifiedTime with
  | none => exact le_refl _
  | some ts => exact saveTimestamp_mono ts t

/-- The timestamp-saving fold of `getRemoteModifiedFiles` leaves every field
except `mostRecentTimestampSeen` alone. -/
theorem saveFold_const (env : CycleEnv) (l : List FileMetaData) :
    ∀ s : SState,
      (l.foldl (saveRemoteStamp env) s).verifiedAt = s.verifiedAt
      ∧ (l.foldl (saveRemoteStamp env) s).verifiedAtPlusOneSec = s.verifiedAtPlusOneSec
      ∧ (l.foldl (saveRemoteStamp env) s).verified = s.verified
      ∧ (l.foldl (saveRemoteStamp env) s).filesToUpload = s.filesToUpload
      ∧ (l.foldl (saveRemoteStamp env) s).filesToDownload = s.filesToDownload
      ∧ (l.foldl (saveRemoteStamp env) s).localFiles = s.localFiles
      ∧ (l.foldl (saveRemoteStamp env) s).cleanedAt = s.cleanedAt := by
  induction l with
  | nil => exact fun s => ⟨rfl, rfl, rfl, rfl, rfl, rfl, rfl⟩
  | cons x l ih =>
    intro s
    have h1 := saveRemoteStamp_const env x s
    have h2 := ih (saveRemoteStamp env s x)
    simp only [List.foldl_cons]
    exact ⟨h2.1.trans h1.1, h2.2.1.trans h1.2.1, h2.2.2.1.trans h1.2.2.1,
      h2.2.2.2.1.trans h1.2.2.2.1, h2.2.2.2.2.1.trans h1.2.2.2.2.1,
      h2.2.2.2.2.2.1.trans h1.2.2.2.2.2.1, h2.2.2.2.2.2.2.trans h1.2.2.2.2.2.2⟩

/-- The timestamp-saving fold never lowers `mostRecentTimestampSeen`. -/
theorem saveFold_mono (env : CycleEnv) (l : List FileMetaData) :
    ∀ s : SState,
      s.mostRecentTimestampSeen ≤
        (l.foldl (saveRemoteStamp env) s).mostRecentTimestampSeen := by
  induction l with
  | nil => exact fun s => le_refl _
  | cons x l ih =>
    intro s
    simp only [List.foldl_cons]
    exact le_trans (saveRemoteStamp_mono env x s) (ih (saveRemoteStamp env s x))

/-- Lemma: `handleUploads` returns the stat-surviving pending set in every branch. -/
theorem handleUploads_ftu (env : CycleEnv) (inp : UploadsIn) :
    (handleUploads env inp).filesToUpload =
      inp.filesToUpload.filter (fun p => (env.fs.stat p).isSome) := by
  dsimp only [handleUploads]
  split
  · rfl
  · split <;> rfl

/-- With no surviving pending path, `handleUploads` writes nothing. -/
theorem handleUploads_wrote_of_nil (env : CycleEnv) (inp : UploadsIn)
    (h : inp.filesToUpload.filter (fun p => (env.fs.stat p).isSome) = []) :
    (handleUploads env inp).wrote = false := by
  dsimp only [handleUploads]
  rw [h]
  simp [createFoldersLoop, uploadFilesLoop, sortPaths]

/-- If `handleUploads` wrote something, its pending set is nonempty. -/
theorem handleUploads_wrote_ne (env : CycleEnv) (inp : UploadsIn) :
    (handleUploads env inp).wrote = true → (handleUploads env inp).filesToUpload ≠ [] := by
  intro hw hnil
  rw [handleUploads_ftu] at hnil
  rw [handleUploads_wrote_of_nil env inp hnil] at hw
  exact Bool.noConfusion hw

/-- The upload section only touches the pending-upload set, `localFiles`
and the upload map, whether it aborts or not. -/
theorem uploadSection_state (env : CycleEnv) (s : SState) (tr : CycleTrace) (lm : Bool) :
    (outPair (uploadSection env s tr lm)).1.verifiedAt = s.verifiedAt
    ∧ (outPair (uploadSection env s tr lm)).1.verifiedAtPlusOneSec = s.verifiedAtPlusOneSec
    ∧ (outPair (uploadSection env s tr lm)).1.verified = s.verified
    ∧ (outPair (uploadSection env s tr lm)).1.mostRecentTimestampSeen
        = s.mostRecentTimestampSeen
    ∧ (outPair (uploadSection env s tr lm)).1.filesToDownload = s.filesToDownload
    ∧ (outPair (uploadSection env s tr lm)).1.cleanedAt = s.cleanedAt := by
  dsimp only [uploadSection]
  cases lm with
  | false => exact ⟨rfl, rfl, rfl, rfl, rfl, rfl⟩
  | true =>
    cases hf : env.fillUpload1 with
    | none => exact ⟨rfl, rfl, rfl, rfl, rfl, rfl⟩
    | some m =>
      dsimp only
      cases hb : (handleUploads env ⟨s.filesToUpload, s.localFiles, m⟩).err <;>
        exact ⟨rfl, rfl, rfl, rfl, rfl, rfl⟩

/-- The upload section never touches the download or verifier trace flags. -/
theorem uploadSection_trace_const (env : CycleEnv) (s : SState) (tr : CycleTrace) (lm : Bool) :
    (outPair (uploadSection env s tr lm)).2.handleDownloadsCalled = tr.handleDownloadsCalled
    ∧ (outPair (uploadSection env s tr lm)).2.verifierRan = tr.verifierRan := by
  dsimp only [uploadSection]
  cases lm with
  | false => exact ⟨rfl, rfl⟩
  | true =>
    cases hf : env.fillUpload1 with
    | none => exact ⟨rfl, rfl⟩
    | some m =>
      dsimp only
      cases hb : (handleUploads env ⟨s.filesToUpload, s.localFiles, m⟩).err <;>
        exact ⟨rfl, rfl⟩

/-- A passing upload section keeps the error/abort flags and can only have
written when its pending set is nonempty. -/
theorem uploadSection_ok (env : CycleEnv) (s : SState) (tr : CycleTrace) (lm : Bool)
    (s2 : SState) (tr2 : CycleTrace) (h : uploadSection env s tr lm = .ok (s2, tr2)) :
    tr2.uploadPhaseErr = tr.uploadPhaseErr ∧ tr2.aborted = tr.aborted
    ∧ (tr2.wrote = true → tr.wrote = true ∨ s2.filesToUpload ≠ []) := by
  dsimp only [uploadSection] at h
  split at h
  · split at h
    · exact Except.noConfusion h
    · split at h
      · exact Except.noConfusion h
      · injection h with h2
        injection h2 with hs ht
        subst hs; subst ht
        refine ⟨rfl, rfl, ?_⟩
        intro hw
        dsimp only at hw
        rcases Bool.or_eq_true _ _ |>.mp hw with h1 | h2
        · exact Or.inl h1
        · exact Or.inr (handleUploads_wrote_ne env _ h2)
  · injection h with h2
    injection h2 with hs ht
    subst hs; subst ht
    exact ⟨rfl, rfl, fun hw => Or.inl hw⟩

/-- An aborting upload section raises both the abort and the upload-error
flags. -/
theorem uploadSection_err (env : CycleEnv) (s : SState) (tr : CycleTrace) (lm : Bool)
    (s2 : SState) (tr2 : CycleTrace) (h : uploadSection env s tr lm = .error (s2, tr2)) :
    tr2.aborted = true ∧ tr2.uploadPhaseErr = true := by
  dsimp only [uploadSection] at h
  split at h
  · split at h
    · injection h with h2
      injection h2 with hs ht
      subst ht
      exact ⟨rfl, rfl⟩
    · split at h
      · injection h with h2
        injection h2 with hs ht
        subst ht
        exact ⟨rfl, rfl⟩
      · exact Except.noConfusion h
  · exact Except.noConfusion h

/-- Lemma: `afterDownloads` only touches `localFiles` and, in the trace, the
download flags; a new write implies a nonempty pending-download map. -/
theorem afterDownloads_out (env : CycleEnv) (s : SState) (tr : CycleTrace) :
    (afterDownloads env s tr).1.verifiedAt = s.verifiedAt
    ∧ (afterDownloads env s tr).1.verifiedAtPlusOneSec = s.verifiedAtPlusOneSec
    ∧ (afterDownloads env s tr).1.verified = s.verified
    ∧ (afterDownloads env s tr).1.mostRecentTimestampSeen = s.mostRecentTimestampSeen
    ∧ (afterDownloads env s tr).1.filesToUpload = s.filesToUpload
    ∧ (afterDownloads env s tr).1.filesToDownload = s.filesToDownload
    ∧ (afterDownloads env s tr).1.cleanedAt = s.cleanedAt
    ∧ (afterDownloads env s tr).2.uploadPhaseErr = tr.uploadPhaseErr
    ∧ (afterDownloads env s tr).2.aborted = tr.aborted
    ∧ (afterDownloads env s tr).2.verifierRan = tr.verifierRan
    ∧ ((afterDownloads env s tr).2.wrote = true →
        tr.wrote = true ∨ (afterDownloads env s tr).1.filesToDownload ≠ []) := by
  dsimp only [afterDownloads]
  split
  · next hne =>
    refine ⟨rfl, rfl, rfl, rfl, rfl, rfl, rfl, rfl, rfl, rfl, ?_⟩
    intro hw
    dsimp only at hw
    rcases Bool.or_eq_true _ _ |>.mp hw with h1 | _
    · exact Or.inl h1
    · exact Or.inr hne
  · exact ⟨rfl, rfl, rfl, rfl, rfl, rfl, rfl, rfl, rfl, rfl, fun hw => Or.inl hw⟩

/-- The download section leaves the barrier fields, the flag, the clean
time and the pending-upload set alone, and only raises
`mostRecentTimestampSeen`. -/
theorem downloadSection_state (env : CycleEnv) (s : SState) (tr : CycleTrace) :
    (outPair (downloadSection env s tr)).1.verifiedAt = s.verifiedAt
    ∧ (outPair (downloadSection env s tr)).1.verifiedAtPlusOneSec = s.verifiedAtPlusOneSec
    ∧ (outPair (downloadSection env s tr)).1.verified = s.verified
    ∧ (outPair (downloadSection env s tr)).1.cleanedAt = s.cleanedAt
    ∧ (outPair (downloadSection env s tr)).1.filesToUpload = s.filesToUpload
    ∧ s.mostRecentTimestampSeen
        ≤ (outPair (downloadSection env s tr)).1.mostRecentTimestampSeen := by
  dsimp only [downloadSection]
  cases hrm : env.remoteModified with
  | none => exact ⟨rfl, rfl, rfl, rfl, rfl, le_refl _⟩
  | some files =>
    dsimp only
    have hc := saveFold_const env files s
    have hm := saveFold_mono env files s
    by_cases hfe : files ≠ []
    · rw [if_pos hfe]
      cases hfd : env.fillDownload1 with
      | none => exact ⟨hc.1, hc.2.1, hc.2.2.1, hc.2.2.2.2.2.2, hc.2.2.2.1, hm⟩
      | some m =>
        dsimp only
        have ha := afterDownloads_out env
          { files.foldl (saveRemoteStamp env) s with
            downloadLookupMap := m,
            filesToDownload :=
              checkForDownloads env m (files.foldl (saveRemoteStamp env) s).filesToDownload } tr
        exact ⟨ha.1.trans hc.1, ha.2.1.trans hc.2.1, ha.2.2.1.trans hc.2.2.1,
          ha.2.2.2.2.2.2.1.trans hc.2.2.2.2.2.2,
          ha.2.2.2.2.1.trans hc.2.2.2.1, le_trans hm (le_of_eq ha.2.2.2.1.symm)⟩
    · rw [if_neg hfe]
      have ha := afterDownloads_out env (files.foldl (saveRemoteStamp env) s) tr
      exact ⟨ha.1.trans hc.1, ha.2.1.trans hc.2.1, ha.2.2.1.trans hc.2.2.1,
        ha.2.2.2.2.2.2.1.trans hc.2.2.2.2.2.2,
        ha.2.2.2.2.1.trans hc.2.2.2.1, le_trans hm (le_of_eq ha.2.2.2.1.symm)⟩

/-- A passing download section keeps the abort/error/verifier flags, and a
new write implies a nonempty pending-download map in its output state. -/
theorem downloadSection_ok (env : CycleEnv) (s : SState) (tr : CycleTrace)
    (s2 : SState) (tr2 : CycleTrace) (h : downloadSection env s tr = .ok (s2, tr2)) :
    tr2.uploadPhaseErr = tr.uploadPhaseErr ∧ tr2.aborted = tr.aborted
    ∧ tr2.verifierRan = tr.verifierRan
    ∧ (tr2.wrote = true → tr.wrote = true ∨ s2.filesToDownload ≠ []) := by
  dsimp only [downloadSection] at h
  rcases hrm : env.remoteModified with _ | files
  · rw [hrm] at h
    exact Except.noConfusion h
  · rw [hrm] at h
    dsimp only at h
    by_cases hfe : files ≠ []
    · rw [if_pos hfe] at h
      rcases hfd : env.fillDownload1 with _ | m
      · rw [hfd] at h
        exact Except.noConfusion h
      · rw [hfd] at h
        dsimp only at h
        injection h with h2
        have ha := afterDownloads_out env
          { files.foldl (saveRemoteStamp env) s with
            downloadLookupMap := m,
            filesToDownload :=
              checkForDownloads env m (files.foldl (saveRemoteStamp env) s).filesToDownload } tr
        rw [h2] at ha
        exact ⟨ha.2.2.2.2.2.2.2.1, ha.2.2.2.2.2.2.2.2.1, ha.2.2.2.2.2.2.2.2.2.1,
          fun hw => ha.2.2.2.2.2.2.2.2.2.2 hw⟩
    · rw [if_neg hfe] at h
      injection h with h2
      have ha := afterDownloads_out env (files.foldl (saveRemoteStamp env) s) tr
      rw [h2] at ha
      exact ⟨ha.2.2.2.2.2.2.2.1, ha.2.2.2.2.2.2.2.2.1, ha.2.2.2.2.2.2.2.2.2.1,
        fun hw => ha.2.2.2.2.2.2.2.2.2.2 hw⟩

/-- An aborting download section raises the abort flag and keeps the other
trace flags. -/
theorem downloadSection_err (env : CycleEnv) (s : SState) (tr : CycleTrace)
    (s2 : SState) (tr2 : CycleTrace) (h : downloadSection env s tr = .error (s2, tr2)) :
    tr2.aborted = true ∧ tr2.uploadPhaseErr = tr.uploadPhaseErr
    ∧ tr2.handleDownloadsCalled = tr.handleDownloadsCalled
    ∧ tr2.verifierRan = tr.verifierRan := by
  dsimp only [downloadSection] at h
  rcases hrm : env.remoteModified with _ | files
  · rw [hrm] at h
    injection h with h2
    injection h2 with hs ht
    subst ht
    exact ⟨rfl, rfl, rfl, rfl⟩
  · rw [hrm] at h
    dsimp only at h
    by_cases hfe : files ≠ []
    · rw [if_pos hfe] at h
      rcases hfd : env.fillDownload1 with _ | m
      · rw [hfd] at h
        injection h with h2
        injection h2 with hs ht
        subst ht
        exact ⟨rfl, rfl, rfl, rfl⟩
      · rw [hfd] at h
        exact Except.noConfusion h
    · rw [if_neg hfe] at h
      exact Except.noConfusion h

/-- The gate either leaves the barrier alone or advances it to
`mostRecentTimestampSeen` with the `+1s` companion, and never changes
`mostRecentTimestampSeen` or `cleanedAt` itself. -/
theorem verifyGate_out (env : CycleEnv) (s : SState) (tr : CycleTrace) :
    (verifyGate env s tr).1.mostRecentTimestampSeen = s.mostRecentTimestampSeen
    ∧ (verifyGate env s tr).1.cleanedAt = s.cleanedAt
    ∧ (((verifyGate env s tr).1.verified = s.verified
        ∧ (verifyGate env s tr).1.verifiedAt = s.verifiedAt
        ∧ (verifyGate env s tr).1.verifiedAtPlusOneSec = s.verifiedAtPlusOneSec)
       ∨ ((verifyGate env s tr).1.verified = true
        ∧ (verifyGate env s tr).1.verifiedAt = s.mostRecentTimestampSeen
        ∧ (verifyGate env s tr).1.verifiedAtPlusOneSec
            = s.mostRecentTimestampSeen + nsPerSecond)) := by
  dsimp only [verifyGate, setVerifiedTime]
  split
  · split
    · exact ⟨rfl, rfl, Or.inr ⟨rfl, rfl, rfl⟩⟩
    · exact ⟨rfl, rfl, Or.inl ⟨rfl, rfl, rfl⟩⟩
  · exact ⟨rfl, rfl, Or.inl ⟨rfl, rfl, rfl⟩⟩

/-- The gate's trace: every flag except `verifierRan` is preserved, and
`verifierRan` is raised whenever anything is pending. -/
theorem verifyGate_trace (env : CycleEnv) (s : SState) (tr : CycleTrace) :
    (verifyGate env s tr).2.wrote = tr.wrote
    ∧ (verifyGate env s tr).2.aborted = tr.aborted
    ∧ (verifyGate env s tr).2.uploadPhaseErr = tr.uploadPhaseErr
    ∧ (verifyGate env s tr).2.handleDownloadsCalled = tr.handleDownloadsCalled
    ∧ ((s.filesToUpload ≠ [] ∨ s.filesToDownload ≠ []) →
        (verifyGate env s tr).2.verifierRan = true) := by
  dsimp only [verifyGate]
  split
  · split
    · exact ⟨rfl, rfl, rfl, rfl, fun _ => rfl⟩
    · exact ⟨rfl, rfl, rfl, rfl, fun _ => rfl⟩
  · next hcond => exact ⟨rfl, rfl, rfl, rfl, fun hc => absurd hc hcond⟩

/-- The verify section never changes `mostRecentTimestampSeen` or
`cleanedAt`, and either leaves the barrier alone or advances it to
`mostRecentTimestampSeen` with the `+1s` companion. -/
theorem verifySection_state (env : CycleEnv) (s : SState) (tr : CycleTrace) :
    (outPair (verifySection env s tr)).1.mostRecentTimestampSeen = s.mostRecentTimestampSeen
    ∧ (outPair (verifySection env s tr)).1.cleanedAt = s.cleanedAt
    ∧ (((outPair (verifySection env s tr)).1.verified = s.verified
        ∧ (outPair (verifySection env s tr)).1.verifiedAt = s.verifiedAt
        ∧ (outPair (verifySection env s tr)).1.verifiedAtPlusOneSec = s.verifiedAtPlusOneSec)
       ∨ ((outPair (verifySection env s tr)).1.verified = true
        ∧ (outPair (verifySection env s tr)).1.verifiedAt = s.mostRecentTimestampSeen
        ∧ (outPair (verifySection env s tr)).1.verifiedAtPlusOneSec
            = s.mostRecentTimestampSeen + nsPerSecond)) := by
  dsimp only [verifySection, verifySection2]
  by_cases hu : s.filesToUpload ≠ []
  · rw [if_pos hu]
    rcases hf2 : env.fillUpload2 with _ | m
    · exact ⟨rfl, rfl, Or.inl ⟨rfl, rfl, rfl⟩⟩
    · dsimp only
      by_cases hd : s.filesToDownload ≠ []
      · rw [if_pos hd]
        rcases hg2 : env.fillDownload2 with _ | m2
        · exact ⟨rfl, rfl, Or.inl ⟨rfl, rfl, rfl⟩⟩
        · exact verifyGate_out env _ tr
      · rw [if_neg hd]
        exact verifyGate_out env _ tr
  · rw [if_neg hu]
    by_cases hd : s.filesToDownload ≠ []
    · rw [if_pos hd]
      rcases hg2 : env.fillDownload2 with _ | m2
      · exact ⟨rfl, rfl, Or.inl ⟨rfl, rfl, rfl⟩⟩
      · exact verifyGate_out env _ tr
    · rw [if_neg hd]
      exact verifyGate_out env _ tr

/-- A passing verify section keeps the error, abort, write and download
flags, and reports a verifier run whenever anything was pending. -/
theorem verifySection_ok (env : CycleEnv) (s : SState) (tr : CycleTrace)
    (s2 : SState) (tr2 : CycleTrace) (h : verifySection env s tr = .ok (s2, tr2)) :
    tr2.uploadPhaseErr = tr.uploadPhaseErr ∧ tr2.aborted = tr.aborted
    ∧ tr2.wrote = tr.wrote
    ∧ tr2.handleDownloadsCalled = tr.handleDownloadsCalled
    ∧ ((s.filesToUpload ≠ [] ∨ s.filesToDownload ≠ []) → tr2.verifierRan = true) := by
  dsimp only [verifySection, verifySection2] at h
  by_cases hu : s.filesToUpload ≠ []
  · rw [if_pos hu] at h
    rcases hf2 : env.fillUpload2 with _ | m
    · rw [hf2] at h
      exact Except.noConfusion h
    · rw [hf2] at h
      dsimp only at h
      by_cases hd : s.filesToDownload ≠ []
      · rw [if_pos hd] at h
        rcases hg2 : env.fillDownload2 with _ | m2
        · rw [hg2] at h
          exact Except.noConfusion h
        · rw [hg2] at h
          dsimp only at h
          injection h with h2
          have hg := verifyGate_trace env
            { { s with uploadLookupMap := m } with downloadLookupMap := m2 } tr
          rw [h2] at hg
          exact ⟨hg.2.2.1, hg.2.1, hg.1, hg.2.2.2.1, fun hc => hg.2.2.2.2 hc⟩
      · rw [if_neg hd] at h
        injection h with h2
        have hg := verifyGate_trace env { s with uploadLookupMap := m } tr
        rw [h2] at hg
        exact ⟨hg.2.2.1, hg.2.1, hg.1, hg.2.2.2.1, fun hc => hg.2.2.2.2 hc⟩
  · rw [if_neg hu] at h
    by_cases hd : s.filesToDownload ≠ []
    · rw [if_pos hd] at h
      rcases hg2 : env.fillDownload2 with _ | m2
      · rw [hg2] at h
        exact Except.noConfusion h
      · rw [hg2] at h
        dsimp only at h
        injection h with h2
        have hg := verifyGate_trace env { s with downloadLookupMap := m2 } tr
        rw [h2] at hg
        exact ⟨hg.2.2.1, hg.2.1, hg.1, hg.2.2.2.1, fun hc => hg.2.2.2.2 hc⟩
    · rw [if_neg hd] at h
      injection h with h2
      have hg := verifyGate_trace env s tr
      rw [h2] at hg
      exact ⟨hg.2.2.1, hg.2.1, hg.1, hg.2.2.2.1, fun hc => hg.2.2.2.2 hc⟩

/-- An aborting verify section raises the abort flag and keeps the other
trace flags. -/
theorem verifySection_err (env : CycleEnv) (s : SState) (tr : CycleTrace)
    (s2 : SState) (tr2 : CycleTrace) (h : verifySection env s tr = .error (s2, tr2)) :
    tr2.aborted = true ∧ tr2.uploadPhaseErr = tr.uploadPhaseErr
    ∧ tr2.handleDownloadsCalled = tr.handleDownloadsCalled := by
  dsimp only [verifySection, verifySection2] at h
  by_cases hu : s.filesToUpload ≠ []
  · rw [if_pos hu] at h
    rcases hf2 : env.fillUpload2 with _ | m
    · rw [hf2] at h
      injection h with h2
      injection h2 with hs ht
      subst ht
      exact ⟨rfl, rfl, rfl⟩
    · rw [hf2] at h
      dsimp only at h
      by_cases hd : s.filesToDownload ≠ []
      · rw [if_pos hd] at h
        rcases hg2 : env.fillDownload2 with _ | m2
        · rw [hg2] at h
          injection h with h2
          injection h2 with hs ht
          subst ht
          exact ⟨rfl, rfl, rfl⟩
        · rw [hg2] at h
          exact Except.noConfusion h
      · rw [if_neg hd] at h
        exact Except.noConfusion h
  · rw [if_neg hu] at h
    by_cases hd : s.filesToDownload ≠ []
    · rw [if_pos hd] at h
      rcases hg2 : env.fillDownload2 with _ | m2
      · rw [hg2] at h
        injection h with h2
        injection h2 with hs ht
        subst ht
        exact ⟨rfl, rfl, rfl⟩
      · rw [hg2] at h
        exact Except.noConfusion h
    · rw [if_neg hd] at h
      exact Except.noConfusion h

/-- The cleanup section returns the trace untouched, keeps the barrier
fields and `mostRecentTimestampSeen`, and can only drop `verified`. -/
theorem cleanupSection_out (env : CycleEnv) (s : SState) (tr : CycleTrace) :
    (cleanupSection env s tr).2 = tr
    ∧ (cleanupSection env s tr).1.verifiedAt = s.verifiedAt
    ∧ (cleanupSection env s tr).1.verifiedAtPlusOneSec = s.verifiedAtPlusOneSec
    ∧ (cleanupSection env s tr).1.mostRecentTimestampSeen = s.mostRecentTimestampSeen
    ∧ ((cleanupSection env s tr).1.verified = true → s.verified = true) := by
  dsimp only [cleanupSection]
  split
  · exact ⟨rfl, rfl, rfl, rfl, fun hh => Bool.noConfusion hh⟩
  · exact ⟨rfl, rfl, rfl, rfl, fun hh => hh⟩

/-- The top of the cycle: the flag is untouched, the timestamp only grows,
the barrier is untouched when already verified, and set to the sentinel
pair otherwise. -/
theorem topSection_out (env : CycleEnv) (s : SState) :
    (topSection env s).1.verified = s.verified
    ∧ s.mostRecentTimestampSeen ≤ (topSection env s).1.mostRecentTimestampSeen
    ∧ (s.verified = true →
        (topSection env s).1.verifiedAt = s.verifiedAt
        ∧ (topSection env s).1.verifiedAtPlusOneSec = s.verifiedAtPlusOneSec)
    ∧ (s.verified = false →
        (topSection env s).1.verifiedAt = sentinelTime
        ∧ (topSection env s).1.verifiedAtPlusOneSec = sentinelTime) := by
  dsimp only [topSection, localFilesModified, resetVerifiedTime]
  have key : ∀ t : SState, t.verified = s.verified →
      t.mostRecentTimestampSeen = s.mostRecentTimestampSeen →
      (s.verified = true →
        t.verifiedAt = s.verifiedAt ∧ t.verifiedAtPlusOneSec = s.verifiedAtPlusOneSec) →
      (s.verified = false →
        t.verifiedAt = sentinelTime ∧ t.verifiedAtPlusOneSec = sentinelTime) →
      (List.foldl walkCheckForModified t env.walkEntries).verified = s.verified
      ∧ s.mostRecentTimestampSeen
          ≤ (List.foldl walkCheckForModified t env.walkEntries).mostRecentTimestampSeen
      ∧ (s.verified = true →
          (List.foldl walkCheckForModified t env.walkEntries).verifiedAt = s.verifiedAt
          ∧ (List.foldl walkCheckForModified t env.walkEntries).verifiedAtPlusOneSec
              = s.verifiedAtPlusOneSec)
      ∧ (s.verified = false →
          (List.foldl walkCheckForModified t env.walkEntries).verifiedAt = sentinelTime
          ∧ (List.foldl walkCheckForModified t env.walkEntries).verifiedAtPlusOneSec
              = sentinelTime) := by
    intro t h1 h2 h3 h4
    have hc := walkFold_const env.walkEntries t
    have hm := walkFold_mono env.walkEntries t
    exact ⟨hc.2.2.trans h1, h2 ▸ hm,
      fun hv => ⟨(hc.1).trans (h3 hv).1, (hc.2.1).trans (h3 hv).2⟩,
      fun hv => ⟨(hc.1).trans (h4 hv).1, (hc.2.1).trans (h4 hv).2⟩⟩
  apply key
  · split <;> rfl
  · split <;> rfl
  · intro hv
    split
    · next hcond =>
      rw [hv] at hcond
      exact absurd hcond (by decide)
    · exact ⟨rfl, rfl⟩
  · intro hv
    split
    · exact ⟨rfl, rfl⟩
    · next hcond =>
      rw [hv] at hcond
      exact absurd rfl hcond

/-- One cycle never lowers `mostRecentTimestampSeen`; a cycle that ends
verified either set the barrier to its final `mostRecentTimestampSeen` or
carried both flag and barrier over; and the barrier-pair relation is
preserved. -/
theorem runCycle_barrier (env : CycleEnv) (s : SState) :
    s.mostRecentTimestampSeen ≤ (runCycle env s).1.mostRecentTimestampSeen
    ∧ ((runCycle env s).1.verified = true →
        ((runCycle env s).1.verifiedAt = (runCycle env s).1.mostRecentTimestampSeen
         ∨ (s.verified = true ∧ (runCycle env s).1.verifiedAt = s.verifiedAt)))
    ∧ (BarrierPairInv s → BarrierPairInv (runCycle env s).1) := by
  dsimp only [runCycle]
  have htop := topSection_out env s
  cases hu : uploadSection env (topSection env s).1 CycleTrace.start (topSection env s).2 with
  | error out =>
    obtain ⟨s1, tr1⟩ := out
    have hus := uploadSection_state env (topSection env s).1 CycleTrace.start (topSection env s).2
    rw [hu] at hus
    dsimp only [outPair] at hus
    refine ⟨le_trans htop.2.1 (le_of_eq hus.2.2.2.1.symm), ?_, ?_⟩
    · intro hv
      rw [hus.2.2.1, htop.1] at hv
      exact Or.inr ⟨hv, hus.1.trans (htop.2.2.1 hv).1⟩
    · intro hinv
      rw [BarrierPairInv, hus.1, hus.2.1]
      cases hsv : s.verified with
      | true =>
        rw [(htop.2.2.1 hsv).1, (htop.2.2.1 hsv).2]
        rw [BarrierPairInv] at hinv
        exact hinv
      | false =>
        rw [(htop.2.2.2 hsv).1, (htop.2.2.2 hsv).2]
        exact Or.inr rfl
  | ok st1 =>
    obtain ⟨s1, tr1⟩ := st1
    dsimp only
    have hus := uploadSection_state env (topSection env s).1 CycleTrace.start (topSection env s).2
    rw [hu] at hus
    dsimp only [outPair] at hus
    have hinv1 : BarrierPairInv s → BarrierPairInv s1 := by
      intro hinv
      rw [BarrierPairInv, hus.1, hus.2.1]
      cases hsv : s.verified with
      | true =>
        rw [(htop.2.2.1 hsv).1, (htop.2.2.1 hsv).2]
        rw [BarrierPairInv] at hinv
        exact hinv
      | false =>
        rw [(htop.2.2.2 hsv).1, (htop.2.2.2 hsv).2]
        exact Or.inr rfl
    have hm1 : s.mostRecentTimestampSeen ≤ s1.mostRecentTimestampSeen :=
      le_trans htop.2.1 (le_of_eq hus.2.2.2.1.symm)
    have hvAt1 : s1.verified = true → s.verified = true ∧ s1.verifiedAt = s.verifiedAt := by
      intro hv
      rw [hus.2.2.1, htop.1] at hv
      exact ⟨hv, hus.1.trans (htop.2.2.1 hv).1⟩
    cases hd : downloadSection env s1 tr1 with
    | error out2 =>
      obtain ⟨s2, tr2⟩ := out2
      have hds := downloadSection_state env s1 tr1
      rw [hd] at hds
      dsimp only [outPair] at hds
      refine ⟨le_trans hm1 hds.2.2.2.2.2, ?_, ?_⟩
      · intro hv
        rw [hds.2.2.1] at hv
        exact Or.inr ⟨(hvAt1 hv).1, hds.1.trans (hvAt1 hv).2⟩
      · intro hinv
        rw [BarrierPairInv, hds.1, hds.2.1]
        exact hinv1 hinv
    | ok st2 =>
      obtain ⟨s2, tr2⟩ := st2
      dsimp only
      have hds := downloadSection_state env s1 tr1
      rw [hd] at hds
      dsimp only [outPair] at hds
      have hinv2 : BarrierPairInv s → BarrierPairInv s2 := by
        intro hinv
        rw [BarrierPairInv, hds.1, hds.2.1]
        exact hinv1 hinv
      have hm2 : s.mostRecentTimestampSeen ≤ s2.mostRecentTimestampSeen :=
        le_trans hm1 hds.2.2.2.2.2
      have hvAt2 : s2.verified = true → s.verified = true ∧ s2.verifiedAt = s.verifiedAt := by
        intro hv
        rw [hds.2.2.1] at hv
        exact ⟨(hvAt1 hv).1, hds.1.trans (hvAt1 hv).2⟩
      cases hv3 : verifySection env s2 tr2 with
      | error out3 =>
        obtain ⟨s3, tr3⟩ := out3
        have hvs := verifySection_state env s2 tr2
        rw [hv3] at hvs
        dsimp only [outPair] at hvs
        rcases hvs.2.2 with ⟨hve, hva, hvp⟩ | ⟨hve, hva, hvp⟩
        · refine ⟨le_trans hm2 (le_of_eq hvs.1.symm), ?_, ?_⟩
          · intro hv
            rw [hve] at hv
            exact Or.inr ⟨(hvAt2 hv).1, hva.trans (hvAt2 hv).2⟩
          · intro hinv
            rw [BarrierPairInv, hva, hvp]
            exact hinv2 hinv
        · refine ⟨le_trans hm2 (le_of_eq hvs.1.symm), ?_, ?_⟩
          · intro _
            exact Or.inl (hva.trans hvs.1.symm)
          · intro _
            rw [BarrierPairInv, hva, hvp]
            exact Or.inl rfl
      | ok st3 =>
        obtain ⟨s3, tr3⟩ := st3
        dsimp only
        have hvs := verifySection_state env s2 tr2
        rw [hv3] at hvs
        dsimp only [outPair] at hvs
        have hcl := cleanupSection_out env s3 tr3
        rcases hvs.2.2 with ⟨hve, hva, hvp⟩ | ⟨hve, hva, hvp⟩
        · refine ⟨le_trans hm2 (le_of_eq (hcl.2.2.2.1.trans hvs.1).symm), ?_, ?_⟩
          · intro hv
            have hv3' : s3.verified = true := hcl.2.2.2.2 hv
            rw [hve] at hv3'
            exact Or.inr ⟨(hvAt2 hv3').1,
              (hcl.2.1.trans hva).trans (hvAt2 hv3').2⟩
          · intro hinv
            rw [BarrierPairInv, hcl.2.1, hcl.2.2.1, hva, hvp]
            exact hinv2 hinv
        · refine ⟨le_trans hm2 (le_of_eq (hcl.2.2.2.1.trans hvs.1).symm), ?_, ?_⟩
          · intro _
            exact Or.inl ((hcl.2.1.trans hva).trans
              (hvs.1.symm.trans hcl.2.2.2.1.symm))
          · intro _
            rw [BarrierPairInv, hcl.2.1, hcl.2.2.1, hva, hvp]
            exact Or.inl rfl

/-- Splitting a run of cycles. -/
theorem runCycles_append (s : SState) (l1 l2 : List CycleEnv) :
    runCycles s (l1 ++ l2) = runCycles (runCycles s l1) l2 := by
  induction l1 generalizing s with
  | nil => rfl
  | cons e l1 ih =>
    rw [List.cons_append, runCycles, runCycles]
    exact ih (runCycle e s).1

/-- Across any run: the timestamp grows, states that end verified satisfy
`verifiedAt ≤ mostRecentTimestampSeen` (given it at the start), the final
`verifiedAt` either dominates the starting timestamp or was carried over
from a verified start, and the barrier-pair relation is preserved. -/
theorem runCycles_barrier (es : List CycleEnv) :
    ∀ s : SState,
      s.mostRecentTimestampSeen ≤ (runCycles s es).mostRecentTimestampSeen
      ∧ ((s.verified = true → s.verifiedAt ≤ s.mostRecentTimestampSeen) →
          (runCycles s es).verified = true →
          (runCycles s es).verifiedAt ≤ (runCycles s es).mostRecentTimestampSeen)
      ∧ ((s.verified = true → s.verifiedAt ≤ s.mostRecentTimestampSeen) →
          (runCycles s es).verified = true →
          (s.mostRecentTimestampSeen ≤ (runCycles s es).verifiedAt
           ∨ (s.verified = true ∧ (runCycles s es).verifiedAt = s.verifiedAt)))
      ∧ (BarrierPairInv s → BarrierPairInv (runCycles s es)) := by
  induction es with
  | nil =>
    intro s
    exact ⟨le_refl _, fun hq hv => hq hv, fun hq hv => Or.inr ⟨hv, rfl⟩, fun h => h⟩
  | cons e es ih =>
    intro s
    have hrc := runCycle_barrier e s
    have ihs := ih (runCycle e s).1
    rw [runCycles]
    have hq' : (s.verified = true → s.verifiedAt ≤ s.mostRecentTimestampSeen) →
        (runCycle e s).1.verified = true →
        (runCycle e s).1.verifiedAt ≤ (runCycle e s).1.mostRecentTimestampSeen := by
      intro hq hv
      rcases hrc.2.1 hv with h1 | ⟨hsv, heq⟩
      · exact le_of_eq h1
      · rw [heq]
        exact le_trans (hq hsv) hrc.1
    refine ⟨le_trans hrc.1 ihs.1, ?_, ?_, ?_⟩
    · intro hq hv
      exact ihs.2.1 (hq' hq) hv
    · intro hq hv
      rcases ihs.2.2.1 (hq' hq) hv with h1 | ⟨hvrc, heq⟩
      · exact Or.inl (le_trans hrc.1 h1)
      · rcases hrc.2.1 hvrc with h2 | ⟨hsv, h3⟩
        · exact Or.inl (le_trans hrc.1 (le_of_eq (heq.trans h2).symm))
        · exact Or.inr ⟨hsv, heq.trans h3⟩
    · intro hinv
      exact ihs.2.2.2 (hrc.2.2 hinv)

/-! ### The barrier claims (C1, C5 amended) -/

/-- C1: the cycle driver advances `verifiedAt` only at the end of a cycle
in which, after verification, both pending sets are empty, setting it to
`mostRecentTimestampSeen`, which `saveTimestamp` keeps non-decreasing;
consequently, for any two cycles of a run from the daemon's start state
that both end in state Verified, the later cycle's `verifiedAt` is at
least the earlier one's. -/
theorem c1_barrier_monotone (lf : List Path) (envs : List CycleEnv) (i j : Nat)
    (hij : i ≤ j)
    (hi : (runCycles (initState lf) (envs.take i)).verified = true)
    (hj : (runCycles (initState lf) (envs.take j)).verified = true) :
    (runCycles (initState lf) (envs.take i)).verifiedAt
      ≤ (runCycles (initState lf) (envs.take j)).verifiedAt := by
  have hj' : i + (j - i) = j := Nat.add_sub_cancel' hij
  have hdecomp : envs.take j = envs.take i ++ (envs.drop i).take (j - i) := by
    conv_lhs => rw [← hj']
    rw [List.take_add]
  rw [hdecomp, runCycles_append] at hj ⊢
  have hq0 : (initState lf).verified = true →
      (initState lf).verifiedAt ≤ (initState lf).mostRecentTimestampSeen :=
    fun hv => Bool.noConfusion hv
  have hQ : (runCycles (initState lf) (envs.take i)).verified = true →
      (runCycles (initState lf) (envs.take i)).verifiedAt
        ≤ (runCycles (initState lf) (envs.take i)).mostRecentTimestampSeen :=
    (runCycles_barrier (envs.take i) (initState lf)).2.1 hq0
  rcases (runCycles_barrier ((envs.drop i).take (j - i))
      (runCycles (initState lf) (envs.take i))).2.2.1 hQ hj with h1 | ⟨_, h2⟩
  · exact le_trans (hQ hi) h1
  · exact le_of_eq h2.symm

/-- C1 witness: a concrete run whose single cycle verifies. -/
theorem c1_barrier_monotone_witness :
    (runCycles (initState []) ([envVerify].take 1)).verifiedAt
      ≤ (runCycles (initState []) ([envVerify].take 1)).verifiedAt :=
  c1_barrier_monotone [] [envVerify] 1 1 (le_refl 1) (by decide) (by decide)

/-- C5 (amended): `verifiedAtPlusOneSec = verifiedAt + 1s` holds after every
successful verification (`setVerifiedTime`); after a reset the code instead
sets `verifiedAtPlusOneSec` equal to `verifiedAt` (both the sentinel), and
the daemon's start state also has the two equal; so at every point of every
run `verifiedAtPlusOneSec` is either `verifiedAt + 1s` or `verifiedAt`. -/
theorem c5_amended (s : SState) (lf : List Path) (envs : List CycleEnv) :
    (setVerifiedTime s).verifiedAtPlusOneSec = (setVerifiedTime s).verifiedAt + nsPerSecond
    ∧ (resetVerifiedTime s).verifiedAtPlusOneSec = (resetVerifiedTime s).verifiedAt
    ∧ (resetVerifiedTime s).verifiedAt = sentinelTime
    ∧ BarrierPairInv (runCycles (initState lf) envs) := by
  refine ⟨rfl, rfl, rfl, ?_⟩
  exact (runCycles_barrier envs (initState lf)).2.2.2 (Or.inr rfl)

/-! ### Upload-error aborts the cycle (C2) -/

/-- C2: when the upload phase of a cycle (the scoped upload-index build or
`handleUploads`) returns an error, the cycle `continue`s and the download
executor is never invoked in that cycle. -/
theorem c2_upload_error_blocks_downloads (env : CycleEnv) (s : SState)
    (h : (runCycle env s).2.uploadPhaseErr = true) :
    (runCycle env s).2.handleDownloadsCalled = false := by
  dsimp only [runCycle] at h ⊢
  cases hu : uploadSection env (topSection env s).1 CycleTrace.start (topSection env s).2 with
  | error out =>
    obtain ⟨s1, tr1⟩ := out
    rw [hu] at h
    dsimp only at h ⊢
    have hutr := uploadSection_trace_const env (topSection env s).1
      CycleTrace.start (topSection env s).2
    rw [hu] at hutr
    dsimp only [outPair] at hutr
    exact hutr.1
  | ok st1 =>
    obtain ⟨s1, tr1⟩ := st1
    rw [hu] at h
    dsimp only at h ⊢
    have hok := uploadSection_ok env (topSection env s).1 CycleTrace.start
      (topSection env s).2 s1 tr1 hu
    have h1 : tr1.uploadPhaseErr = false := hok.1
    cases hd : downloadSection env s1 tr1 with
    | error out2 =>
      obtain ⟨s2, tr2⟩ := out2
      rw [hd] at h
      dsimp only at h ⊢
      have herr := downloadSection_err env s1 tr1 s2 tr2 hd
      rw [herr.2.1, h1] at h
      exact Bool.noConfusion h
    | ok st2 =>
      obtain ⟨s2, tr2⟩ := st2
      rw [hd] at h
      dsimp only at h ⊢
      have hok2 := downloadSection_ok env s1 tr1 s2 tr2 hd
      have h2 : tr2.uploadPhaseErr = false := hok2.1.trans h1
      cases hv3 : verifySection env s2 tr2 with
      | error out3 =>
        obtain ⟨s3, tr3⟩ := out3
        rw [hv3] at h
        dsimp only at h ⊢
        have herr := verifySection_err env s2 tr2 s3 tr3 hv3
        rw [herr.2.1, h2] at h
        exact Bool.noConfusion h
      | ok st3 =>
        obtain ⟨s3, tr3⟩ := st3
        rw [hv3] at h
        dsimp only at h ⊢
        have hok3 := verifySection_ok env s2 tr2 s3 tr3 hv3
        have h3 : tr3.uploadPhaseErr = false := hok3.1.trans h2
        have hcl := cleanupSection_out env s3 tr3
        rw [hcl.1, h3] at h
        exact Bool.noConfusion h

/-- C2 witness: a cycle whose upload-index build fails; the download
executor is not called. -/
theorem c2_upload_error_blocks_downloads_witness :
    (runCycle envUploadErr (initState [])).2.handleDownloadsCalled = false :=
  c2_upload_error_blocks_downloads envUploadErr (initState []) (by decide)

/-! ### Same-cycle verification after writes (C6) -/

/-- C6 counterexample: a concrete cycle in which something was written
(a file was uploaded) and the verifier nevertheless ran within the same
cycle — the driver does not skip verification after a write. -/
theorem c6_counterexample :
    (runCycle envWrite (initState [])).2.wrote = true
    ∧ (runCycle envWrite (initState [])).2.verifierRan = true := by
  exact ⟨by decide, by decide⟩

/-- C6 (amended): in every cycle in which something was written (any
upload or download) and no phase error aborted the cycle, the driver
proceeds within the same cycle to the verify section and runs the
verifier; the cadence sleep happens at the top of every later iteration
regardless, and only a failed verification defers the pending entries to
the next pass. -/
theorem c6_amended (env : CycleEnv) (s : SState)
    (hw : (runCycle env s).2.wrote = true)
    (hab : (runCycle env s).2.aborted = false) :
    (runCycle env s).2.verifierRan = true := by
  dsimp only [runCycle] at hw hab ⊢
  cases hu : uploadSection env (topSection env s).1 CycleTrace.start (topSection env s).2 with
  | error out =>
    obtain ⟨s1, tr1⟩ := out
    rw [hu] at hab
    dsimp only at hab
    have herr := uploadSection_err env (topSection env s).1 CycleTrace.start
      (topSection env s).2 s1 tr1 hu
    rw [herr.1] at hab
    exact Bool.noConfusion hab
  | ok st1 =>
    obtain ⟨s1, tr1⟩ := st1
    rw [hu] at hw hab
    dsimp only at hw hab ⊢
    have hok := uploadSection_ok env (topSection env s).1 CycleTrace.start
      (topSection env s).2 s1 tr1 hu
    cases hd : downloadSection env s1 tr1 with
    | error out2 =>
      obtain ⟨s2, tr2⟩ := out2
      rw [hd] at hab
      dsimp only at hab
      have herr := downloadSection_err env s1 tr1 s2 tr2 hd
      rw [herr.1] at hab
      exact Bool.noConfusion hab
    | ok st2 =>
      obtain ⟨s2, tr2⟩ := st2
      rw [hd] at hw hab
      dsimp only at hw hab ⊢
      have hok2 := downloadSection_ok env s1 tr1 s2 tr2 hd
      cases hv3 : verifySection env s2 tr2 with
      | error out3 =>
        obtain ⟨s3, tr3⟩ := out3
        rw [hv3] at hab
        dsimp only at hab
        have herr := verifySection_err env s2 tr2 s3 tr3 hv3
        rw [herr.1] at hab
        exact Bool.noConfusion hab
      | ok st3 =>
        obtain ⟨s3, tr3⟩ := st3
        rw [hv3] at hw hab
        dsimp only at hw hab ⊢
        have hok3 := verifySection_ok env s2 tr2 s3 tr3 hv3
        have hcl := cleanupSection_out env s3 tr3
        rw [hcl.1] at hw ⊢
        have hw2 : tr2.wrote = true := hok3.2.2.1 ▸ hw
        have hpend : s2.filesToUpload ≠ [] ∨ s2.filesToDownload ≠ [] := by
          rcases hok2.2.2.2 hw2 with h1 | h2
          · rcases hok.2.2 h1 with h0 | hne
            · exact Bool.noConfusion h0
            · refine Or.inl ?_
              have hds := downloadSection_state env s1 tr1
              rw [hd] at hds
              dsimp only [outPair] at hds
              rw [hds.2.2.2.2.1]
              exact hne
          · exact Or.inr h2
        exact hok3.2.2.2.2 hpend

/-- C6 amended witness: the write-then-verify cycle, which does not abort. -/
theorem c6_amended_witness :
    (runCycle envWrite (initState [])).2.verifierRan = true :=
  c6_amended envWrite (initState []) (by decide) (by decide)

/-! ### Missing parent aborts the batch (C7) -/

/-- C7 counterexample: a two-entry upload batch whose first entry has no
indexed parent; `handleUploads` returns the error after attempting only
that entry — the second entry of the batch is not processed in this cycle,
contradicting `that entry alone is skipped while the executor continues
with the remaining entries`. -/
theorem c7_counterexample :
    (handleUploads envBatch ⟨[pA, pB], [pA, pB], []⟩).err = true
    ∧ (handleUploads envBatch ⟨[pA, pB], [pA, pB], []⟩).attempts = [pA]
    ∧ (handleUploads envBatch ⟨[pA, pB], [pA, pB], []⟩).filesToUpload = [pA, pB] := by
  exact ⟨by decide, by decide, by decide⟩

/-- C7 (amended): when the upload executor reaches a pending file whose
parent path has no entry in the upload index, `handleCreate` returns the
`parent not in map yet` error and `handleUploads` propagates it at once:
the remaining entries of the batch are not attempted this cycle, the batch
stays pending (to be retried next cycle after the driver `continue`s), and
only the failing entry was attempted. -/
theorem c7_amended (env : CycleEnv) (A B : Path) (lf : List Path)
    (infoA infoB : LocalInfo) (idA : String)
    (hA : env.fs.stat A = some infoA) (hAd : infoA.isDir = false)
    (hB : env.fs.stat B = some infoB) (hBd : infoB.isDir = false)
    (hgen : env.genId A = some idA)
    (hparent : alookup A.dropLast ([] : List (Path × FileMetaData)) = none) :
    (handleUploads env ⟨[A, B], lf, []⟩).err = true
    ∧ (handleUploads env ⟨[A, B], lf, []⟩).attempts = [A]
    ∧ (handleUploads env ⟨[A, B], lf, []⟩).filesToUpload = [A, B] := by
  dsimp only [handleUploads]
  rw [show ([A, B] : List Path).filter (fun p => (env.fs.stat p).isSome) = [A, B] by
    simp [List.filter, hA, hB]]
  rw [show ([A, B] : List Path).filter
      (fun p => ((env.fs.stat p).getD defaultLocalInfo).isDir) = [] by
    simp [List.filter, hA, hB, hAd, hBd]]
  rw [show sortPaths [] = [] from rfl]
  rw [show createFoldersLoop env [] ⟨[], [], false⟩ = .ok ⟨[], [], false⟩ from rfl]
  dsimp only
  rw [show uploadFilesLoop env [A, B] ⟨[], [], false⟩ = .error ⟨[], [A], false⟩ by
    rw [uploadFilesLoop, hA]
    dsimp only
    rw [if_neg (by simp [hAd])]
    rw [show alookup A ([] : List (Path × FileMetaData)) = none from rfl]
    rw [handleCreate, hgen]
    dsimp only
    rw [hparent]
    rfl]
  exact ⟨rfl, rfl, rfl⟩

/-- C7 amended witness: the concrete two-entry batch. -/
theorem c7_amended_witness :
    (handleUploads envBatch ⟨[pA, pB], [], []⟩).err = true
    ∧ (handleUploads envBatch ⟨[pA, pB], [], []⟩).attempts = [pA]
    ∧ (handleUploads envBatch ⟨[pA, pB], [], []⟩).filesToUpload = [pA, pB] :=
  c7_amended envBatch pA pB [] infoAB infoAB "gid"
    (by decide) (by decide) (by decide) (by decide) (by decide) (by decide)

/-! ### The subtree-skip test of the upload-index builder (C8) -/

/-- The child loop of the builder only ever appends to the listing log. -/
theorem fillChildren_listed_mono :
    ∀ (n : Nat) (ftu : List Path) (folder : Path) (l : List RNode) (acc : FillAcc),
      sizeOf l ≤ n → ∀ p, p ∈ acc.listed → p ∈ (fillChildren ftu folder l acc).listed := by
  intro n
  induction n with
  | zero =>
    intro ftu folder l acc hsz p hp
    have hone : 1 ≤ sizeOf l := by cases l <;> simp_arith
    omega
  | succ n ih =>
    intro ftu folder l acc hsz p hp
    cases l with
    | nil =>
      rw [fillChildren]
      exact hp
    | cons c cs =>
      cases c with
      | mk cm cc =>
        have hszc : sizeOf cs ≤ n := by
          have : sizeOf (RNode.mk cm cc :: cs) = 1 + sizeOf (RNode.mk cm cc) + sizeOf cs := by
            simp_arith
          have hcm : 1 ≤ sizeOf (RNode.mk cm cc) := by simp_arith
          omega
        have hszcc : sizeOf cc ≤ n := by
          have : sizeOf (RNode.mk cm cc :: cs) = 1 + sizeOf (RNode.mk cm cc) + sizeOf cs := by
            simp_arith
          have : sizeOf (RNode.mk cm cc) = 1 + sizeOf cm + sizeOf cc := by simp_arith
          omega
        rw [fillChildren]
        dsimp only [RNode.meta, RNode.children]
        apply ih ftu folder cs _ hszc p
        split
        · rw [fillFolder.eq_def]
          split
          · exact hp
          · dsimp only
            exact ih ftu (folder ++ [cm.name]) cc _ hszcc p (List.mem_append_left _ hp)
        · exact hp

/-- C8 counterexample: with the single pending upload `base/a..b` (a plain
file whose name merely contains two consecutive dots), the relative path
`a..b` from the base folder does not start with `..`, so the claimed test
says the builder descends into `base`; the code's `strings.Contains` test
sees the `..` substring and skips the folder — and with it the whole
subtree — leaving the upload map and the listing log empty. -/
theorem c8_counterexample :
    specPathIsNeeded ["base"] [["base", "a..b"]] = true
    ∧ fillFolder [["base", "a..b"]] ["base"] (some "id0")
        [.mk ⟨"idF", "a..b", "text/plain", "", "zz", []⟩ []] ⟨[], []⟩ = ⟨[], []⟩ := by
  constructor
  · decide
  · rw [fillFolder.eq_def, if_pos (by decide)]

/-- C8 (amended): for each folder the builder processes (a base folder or
a subfolder of a listed folder), it skips the folder — and with it the
whole subtree — iff `localPathIsNeeded` fails, it lists the folder iff the
test passes, and the test passes iff some pending upload path has a
relative path from the folder that does not CONTAIN `..` as a substring
(the code's `strings.Contains` test, not the prefix test of the claim). -/
theorem c8_amended (ftu : List Path) (folder : Path) (baseEntry : Option String)
    (children : List RNode) (acc : FillAcc) :
    (localPathIsNeeded folder ftu = false →
      fillFolder ftu folder baseEntry children acc = acc)
    ∧ (localPathIsNeeded folder ftu = true →
        folder ∈ (fillFolder ftu folder baseEntry children acc).listed)
    ∧ (localPathIsNeeded folder ftu = true ↔
        ∃ p ∈ ftu, strContains (relString folder p) ".." = false) := by
  refine ⟨?_, ?_, ?_⟩
  · intro hn
    rw [fillFolder.eq_def, if_pos (by rw [hn]; rfl)]
  · intro hn
    rw [fillFolder.eq_def, if_neg (by rw [hn]; exact fun hh => Bool.noConfusion hh)]
    dsimp only
    apply fillChildren_listed_mono (sizeOf children) ftu folder children _ (le_refl _)
    exact List.mem_append_right _ (List.mem_cons_self _ _)
  · rw [localPathIsNeeded, List.any_eq_true]
    simp only [Bool.not_eq_true']

/-- C8 amended witness: a pending path directly inside the base folder
makes the test pass and the folder gets listed. -/
theorem c8_amended_witness :
    localPathIsNeeded ["base"] [["base", "x"]] = true
    ∧ ["base"] ∈ (fillFolder [["base", "x"]] ["base"] (some "id0") [] ⟨[], []⟩).listed :=
  ⟨by decide,
   (c8_amended [["base", "x"]] ["base"] (some "id0") [] ⟨[], []⟩).2.1 (by decide)⟩

end GDrive